import Mathlib

/-!
Verification development for the SourcePawn preprocessor core
(crates/preprocessor/src/lib.rs and crates/preprocessor/src/buffer.rs).

The embedding models the driver loop of `SourcepawnPreprocessor::preprocess_input`
as an executable step function over an explicit state.  The external lexer is
modelled as a list of `Symbol`s, each tagged with the value the lexer's
`in_preprocessor()` predicate has while that symbol is the next one to be
produced.  The injected include callback and the `#if` expression evaluator
(evaluator.rs, which is not part of the studied sources) are parameters of the
model, bundled in `Ctx`.  Components of this repository that are referenced by
lib.rs but whose sources are not available (conditions.rs, macros.rs,
evaluator.rs, the lexer's `Symbol`, and the `RE_CHEVRON` / `RE_QUOTE` patterns
of base_db) are modelled from the specification and marked as such in their
doc comments.
-/

set_option linter.unusedVariables false
set_option maxRecDepth 400000

namespace SP

/-- Preprocessor directive subcategory of `TokenKind::PreprocDir` from
sourcepawn_lexer, restricted to the variants lib.rs dispatches on plus a
catch-all `MPragma` for the "other directives" arm. -/
inductive PreprocDir where
  | MDefine
  | MUndef
  | MIf
  | MElseif
  | MElse
  | MEndif
  | MInclude
  | MTryinclude
  | MPragma
deriving DecidableEq, Repr

/-- Token kinds of the external lexer, flattened: `Literal(IntegerLiteral)`
becomes `IntLit`, `Operator(Percent)` becomes `Percent`, and every other kind
that lib.rs treats uniformly (the `_ => push_symbol` arm) is `Other`. -/
inductive TokenKind where
  | Identifier
  | IntLit
  | StrLit
  | Newline
  | Eof
  | Using
  | Intrinsics
  | Dot
  | Semicolon
  | Comma
  | LParen
  | RParen
  | Percent
  | PreprocDir (d : PreprocDir)
  | Unknown
  | Other
deriving DecidableEq, Repr

/-- A lexer symbol: kind, text, half-open byte range `[rstart, rend)` in the
original source, and the signed count `delta` of whitespace bytes immediately
preceding it.  `inPre` records the value of the lexer's `in_preprocessor()`
predicate at the moment this symbol is the next one the lexer will yield. -/
structure Symbol where
  tokenKind : TokenKind
  text : String
  rstart : Nat
  rend : Nat
  delta : Int
  inPre : Bool
deriving DecidableEq, Repr

def natOfChars (acc : Nat) : List Char → Option Nat
  | [] => some acc
  | c :: rest =>
    if '0' ≤ c ∧ c ≤ '9' then natOfChars (acc * 10 + (c.toNat - '0'.toNat)) rest
    else none

/-- Model of `symbol.to_int()` for integer literals (decimal digit parse). -/
def Symbol.toIntVal (sym : Symbol) : Option Nat :=
  match sym.text.data with
  | [] => none
  | c :: rest => natOfChars 0 (c :: rest)

/-- Model of `Symbol::inline_text`.  Modelled from the spec: the directive's
inline text is the full text of the directive symbol with line continuations
joined into one line; line continuations inside include directives are not
modelled, so it coincides with the symbol text. -/
def Symbol.inlineText (sym : Symbol) : String :=
  sym.text

/-- The `Macro` record of macros.rs: owning file, length of the name, body
symbols, optional positional-parameter table and number of parameters.
(Named `MacroDef` in this development.) -/
structure MacroDef where
  fileId : Nat
  nameLen : Nat
  body : List Symbol
  params : Option (List Int)
  nbParams : Int
deriving DecidableEq, Repr

/-- The macro store's map, modelled as an association list with shadowing
on insert. -/
abbrev MacrosMap := List (String × MacroDef)

def lookupMacroDef (mm : MacrosMap) (name : String) : Option MacroDef :=
  match mm with
  | [] => none
  | p :: rest => if p.1 = name then some p.2 else lookupMacroDef rest name

def insertMacroDef (mm : MacrosMap) (name : String) (md : MacroDef) : MacrosMap :=
  (name, md) :: mm

def removeMacroDef (mm : MacrosMap) (name : String) : MacrosMap :=
  mm.filter (fun p => p.1 ≠ name)

/-- `ConditionState` from conditions.rs.  Modelled from the spec (§3,
Condition Stack): `Active` — current branch emitted; `NotActivated` — no
branch matched yet, current branch skipped; `Activated` — an earlier branch
matched, remaining branches skipped. -/
inductive ConditionState where
  | Active
  | NotActivated
  | Activated
deriving DecidableEq, Repr

/-- Parse status of `using __intrinsics__.Handle;` (lib.rs, `IntrinsicsParseStatus`). -/
inductive IntrinsicsParseStatus where
  | Using
  | Dot
  | Intrinsics
  | Handle
deriving DecidableEq, Repr

def spacesStr (n : Nat) : String :=
  String.mk (List.replicate n ' ')

/-- Model of lib.rs `linebreak_count`: the number of `\n` bytes in a text. -/
def linebreakCount (s : String) : Nat :=
  s.data.count '\n'

/-- The output buffer of buffer.rs, together with the source map it owns.
`sourceMap` collects the `(original_range, output_range)` pairs pushed by
`push_symbol_no_delta`; `expandedRecords` collects the
`(invocation_range, output_start, output_end, macro name)` entries pushed by
`push_expanded_symbol` (offset.rs, modelled from the spec). -/
structure PreprocessorBuffer where
  contents : String
  offset : Nat
  sourceMap : List ((Nat × Nat) × (Nat × Nat))
  expandedRecords : List ((Nat × Nat) × Nat × Nat × String)
deriving DecidableEq, Repr

def emptyBuffer : PreprocessorBuffer :=
  { contents := "", offset := 0, sourceMap := [], expandedRecords := [] }

/-- buffer.rs `push_ws`: append `|delta|` spaces and advance the offset. -/
def pushWs (b : PreprocessorBuffer) (sym : Symbol) : PreprocessorBuffer :=
  { b with offset := b.offset + sym.delta.natAbs,
           contents := b.contents ++ spacesStr sym.delta.natAbs }

/-- buffer.rs `push_new_line`. -/
def pushNewLine (b : PreprocessorBuffer) : PreprocessorBuffer :=
  { b with offset := b.offset + 1, contents := b.contents ++ "\n" }

/-- buffer.rs `push_new_lines`. -/
def pushNewLines (b : PreprocessorBuffer) : Nat → PreprocessorBuffer
  | 0 => b
  | n + 1 => pushNewLines (pushNewLine b) n

/-- buffer.rs `push_symbol_no_delta`: append the text; record a source-map
pair iff the original range is non-empty (symbols with empty ranges are
expanded macros); the output range starts at the current offset and has the
length of the original range. -/
def pushSymbolNoDelta (b : PreprocessorBuffer) (sym : Symbol) : PreprocessorBuffer :=
  { b with contents := b.contents ++ sym.text,
           sourceMap :=
             if sym.rstart ≠ sym.rend then
               b.sourceMap ++ [((sym.rstart, sym.rend), (b.offset, b.offset + (sym.rend - sym.rstart)))]
             else b.sourceMap,
           offset := b.offset + sym.text.length }

/-- buffer.rs `push_symbol`: an `Eof` symbol just pushes a newline; otherwise
push the whitespace then the text. -/
def pushSymbol (b : PreprocessorBuffer) (sym : Symbol) : PreprocessorBuffer :=
  if sym.tokenKind = TokenKind.Eof then pushNewLine b
  else pushSymbolNoDelta (pushWs b sym) sym

/-- buffer.rs `push_str`: raw append, no source-map entry. -/
def pushStr (b : PreprocessorBuffer) (strVal : String) : PreprocessorBuffer :=
  { b with offset := b.offset + strVal.length, contents := b.contents ++ strVal }

/-- offset.rs `push_expanded_symbol`, modelled from the spec: record the
invocation range, output start, output end and macro identity. -/
def pushExpandedSymbol (b : PreprocessorBuffer) (range : Nat × Nat) (startOff endOff : Nat)
    (name : String) : PreprocessorBuffer :=
  { b with expandedRecords := b.expandedRecords ++ [(range, startOff, endOff, name)] }

/-- Output of one evaluation of an `#if`/`#elseif` condition, as produced by
`IfCondition` of evaluator.rs (modelled from the spec §4.7): the boolean
result or an `EvaluationError` text, the `MacroNotFound` diagnostics collected
while expanding the condition, and `line_continuation_count()`. -/
structure EvalOut where
  result : Except String Bool
  macroNotFound : List String
  lineContinuations : Nat

/-- The injected collaborators of `SourcepawnPreprocessor`: the `#if`
expression evaluator (evaluator.rs) and the include callback
`(macros_map, path, file_id, is_quoted) -> Result`, which may mutate the
macros map and reports success or failure. -/
structure Ctx where
  ev : List Symbol → EvalOut
  cb : MacrosMap → String → Nat → Bool → MacrosMap × Bool

/-- The mutable state of one `preprocess_input` call.  `pendingExpansion`
models the driver-local `expanded_symbol` variable, `intrinsicsStatus` the
`intrinsics_parse_status` variable.  `expansionEvents` is ghost
instrumentation: it records, in order, the macro names for which
`expand_identifier` was invoked; no other field depends on it.
`halted = some false` models normal loop exit, `halted = some true` models
`return self.error_result()`. -/
@[ext]
structure PPState where
  fileId : Nat
  lexer : List Symbol
  macros : MacrosMap
  disabled : List String
  expansionStack : List Symbol
  macroNotFoundErrors : List String
  unresolvedIncludeErrors : List (String × (Nat × Nat))
  evaluationErrors : List String
  conditionsStack : List ConditionState
  condOffsets : List Nat
  skippedRanges : List (Nat × Nat)
  buffer : PreprocessorBuffer
  pendingExpansion : Option (Symbol × String × Nat)
  intrinsicsStatus : Option IntrinsicsParseStatus
  expansionEvents : List String
  halted : Option Bool

def initState (fid : Nat) (lexer : List Symbol) : PPState :=
  { fileId := fid, lexer := lexer, macros := [],
    disabled := [], expansionStack := [],
    macroNotFoundErrors := [], unresolvedIncludeErrors := [], evaluationErrors := [],
    conditionsStack := [], condOffsets := [], skippedRanges := [],
    buffer := emptyBuffer, pendingExpansion := none, intrinsicsStatus := none,
    expansionEvents := [], halted := none }

/-- conditions.rs `ConditionStack::top_is_activated_or_not_activated`,
modelled from the spec: the stack top (list head) determines skipping. -/
def topIsActivatedOrNotActivated : List ConditionState → Bool
  | ConditionState.Activated :: _ => true
  | ConditionState.NotActivated :: _ => true
  | _ => false

/-- conditions.rs `ConditionOffsetStack::pop_and_push_skipped_range`,
modelled from the spec (§4.4 "close range"): pop the pending skipped-region
start offset (if any) and append the completed range to the flat
skipped-ranges list. -/
def popAndPushSkippedRange (s : PPState) (endOff : Nat) : PPState :=
  match s.condOffsets with
  | [] => s
  | start :: rest =>
    { s with condOffsets := rest, skippedRanges := s.skippedRanges ++ [(start, endOff)] }

/-- The `while self.lexer.in_preprocessor()` collection loop of
`process_if_directive`: split the lexer at the first symbol outside the
directive. -/
def collectCond : List Symbol → List Symbol × List Symbol
  | [] => ([], [])
  | sym :: rest =>
    if sym.inPre then
      let p := collectCond rest
      (sym :: p.1, p.2)
    else ([], sym :: rest)

/-- lib.rs `process_if_directive`: push the start offset, collect the
condition symbols, evaluate (an evaluation failure records the error and
defaults the condition to false), push the condition state, collect the
evaluator's macro-not-found diagnostics, and emit one newline per line
continuation of the directive. -/
def processIfDirective (ctx : Ctx) (s : PPState) (sym : Symbol) : PPState :=
  let s := { s with condOffsets := sym.rstart :: s.condOffsets }
  let p := collectCond s.lexer
  let s := { s with lexer := p.2 }
  let eo := ctx.ev p.1
  let s :=
    match eo.result with
    | Except.ok _ => s
    | Except.error e => { s with evaluationErrors := s.evaluationErrors ++ [e] }
  let condVal := match eo.result with
    | Except.ok b => b
    | Except.error _ => false
  let s := { s with conditionsStack :=
    (if condVal then ConditionState.Active else ConditionState.NotActivated) :: s.conditionsStack }
  let s := { s with macroNotFoundErrors := s.macroNotFoundErrors ++ eo.macroNotFound }
  { s with buffer := pushNewLines s.buffer eo.lineContinuations }

/-- lib.rs `process_elseif_directive`.  The second component is `some msg`
when the handler bails (`Expect if before elseif clause.`); the state
component carries the mutations performed before the failure point. -/
def processElseifDirective (ctx : Ctx) (s : PPState) (sym : Symbol) : PPState × Option String :=
  match s.conditionsStack with
  | [] => (s, some "Expect if before elseif clause.")
  | top :: restStack =>
    let s := { s with conditionsStack := restStack }
    match top with
    | ConditionState.NotActivated =>
      (processIfDirective ctx (popAndPushSkippedRange s sym.rend) sym, none)
    | ConditionState.Active =>
      let s := { s with condOffsets := s.condOffsets.tail }
      ({ s with condOffsets := sym.rstart :: s.condOffsets,
                conditionsStack := ConditionState.Activated :: s.conditionsStack }, none)
    | ConditionState.Activated =>
      let s := popAndPushSkippedRange s sym.rend
      ({ s with condOffsets := sym.rstart :: s.condOffsets,
                conditionsStack := ConditionState.Activated :: s.conditionsStack }, none)

/-- lib.rs `process_else_directive`. -/
def processElseDirective (s : PPState) (sym : Symbol) : PPState × Option String :=
  match s.conditionsStack with
  | [] => (s, some "Expect if before else clause.")
  | top :: restStack =>
    let s := { s with conditionsStack := restStack }
    match top with
    | ConditionState.NotActivated =>
      let s := popAndPushSkippedRange s sym.rend
      ({ s with conditionsStack := ConditionState.Active :: s.conditionsStack }, none)
    | ConditionState.Active =>
      let s := { s with condOffsets := s.condOffsets.tail }
      ({ s with condOffsets := sym.rstart :: s.condOffsets,
                conditionsStack := ConditionState.Activated :: s.conditionsStack }, none)
    | ConditionState.Activated =>
      let s := popAndPushSkippedRange s sym.rend
      ({ s with condOffsets := sym.rstart :: s.condOffsets,
                conditionsStack := ConditionState.Activated :: s.conditionsStack }, none)

/-- lib.rs `process_endif_directive`: if the stack is non-empty pop it, and
when the popped state is not `Active` close the pending skipped range; an
empty stack is silently tolerated. -/
def processEndifDirective (s : PPState) (sym : Symbol) : PPState :=
  match s.conditionsStack with
  | [] => s
  | top :: restStack =>
    let s := { s with conditionsStack := restStack }
    if top = ConditionState.Active then s else popAndPushSkippedRange s sym.rend

/-- lib.rs `process_negative_condition`: inside a skipped branch only the
conditional directives are interpreted (`#if` pushes `Activated` to track
nesting); every other symbol is dropped. -/
def processNegativeCondition (ctx : Ctx) (s : PPState) (sym : Symbol) : PPState × Option String :=
  match sym.tokenKind with
  | TokenKind.PreprocDir d =>
    match d with
    | PreprocDir.MIf =>
      ({ s with conditionsStack := ConditionState.Activated :: s.conditionsStack }, none)
    | PreprocDir.MEndif => (processEndifDirective s sym, none)
    | PreprocDir.MElse => processElseDirective s sym
    | PreprocDir.MElseif => processElseifDirective ctx s sym
    | _ => (s, none)
  | _ => (s, none)

/-- State of the three-state `#define` scanner of lib.rs. -/
inductive DefineState where
  | Start
  | Params
  | Body
deriving DecidableEq, Repr

/-- Accumulator of the `#define` scanner: the macro name, body symbols,
positional-argument table (`args`), whether a parameter slot was seen, the
running argument index and the scanner state. -/
structure DefineAcc where
  macroName : String
  body : List Symbol
  args : List Int
  foundParams : Bool
  argsIdx : Int
  dstate : DefineState

def initDefineAcc : DefineAcc :=
  { macroName := "", body := [], args := List.replicate 10 (-1),
    foundParams := false, argsIdx := 0, dstate := DefineState.Start }

/-- The `while self.lexer.in_preprocessor()` loop of the `#define` handler of
lib.rs: stop at the first symbol outside the directive, break on `Eof`,
re-emit every non-newline symbol, and run the `Start`/`Params`/`Body` scanner.
`some msg` in the result signals a `bail!`. -/
def defineLoop (buf : PreprocessorBuffer) (acc : DefineAcc) :
    List Symbol → PreprocessorBuffer × DefineAcc × List Symbol × Option String
  | [] => (buf, acc, [], none)
  | sym :: rest =>
    if !sym.inPre then (buf, acc, sym :: rest, none)
    else if sym.tokenKind = TokenKind.Eof then (buf, acc, rest, none)
    else
      let buf := if sym.tokenKind ≠ TokenKind.Newline then pushSymbol buf sym else buf
      match acc.dstate with
      | DefineState.Start =>
        if acc.macroName = "" ∧ sym.tokenKind = TokenKind.Identifier then
          defineLoop buf { acc with macroName := sym.text } rest
        else if sym.delta = 0 ∧ sym.tokenKind = TokenKind.LParen then
          defineLoop buf { acc with dstate := DefineState.Params } rest
        else
          defineLoop buf { acc with body := acc.body ++ [sym], dstate := DefineState.Body } rest
      | DefineState.Params =>
        if sym.delta > 0 then
          defineLoop buf { acc with body := acc.body ++ [sym], dstate := DefineState.Body } rest
        else
          match sym.tokenKind with
          | TokenKind.RParen => defineLoop buf { acc with dstate := DefineState.Body } rest
          | TokenKind.IntLit =>
            match sym.toIntVal with
            | none => (buf, acc, rest, some "Could not convert to an int value.")
            | some idx =>
              if idx ≥ acc.args.length then
                (buf, acc, rest, some "Argument index out of bounds for macro")
              else
                defineLoop buf { acc with args := acc.args.set idx acc.argsIdx,
                                          foundParams := true } rest
          | TokenKind.Comma => defineLoop buf { acc with argsIdx := acc.argsIdx + 1 } rest
          | TokenKind.Percent => defineLoop buf acc rest
          | _ => (buf, acc, rest, some "Unexpected symbol in macro args")
      | DefineState.Body =>
        defineLoop buf { acc with body := acc.body ++ [sym] } rest

/-- The `PreprocDir::MDefine` arm of `process_directive`: emit the directive
symbol, run the scanner, then append a closing newline and insert the macro
into the store.  On a `bail!`, the state reached so far is returned together
with the message. -/
def processDefineDirective (s : PPState) (sym : Symbol) : PPState × Option String :=
  let buf := pushSymbol s.buffer sym
  let r := defineLoop buf initDefineAcc s.lexer
  let buf := r.1
  let acc := r.2.1
  let rest := r.2.2.1
  match r.2.2.2 with
  | some e => ({ s with buffer := buf, lexer := rest }, some e)
  | none =>
    let md : MacroDef :=
      { fileId := s.fileId
        nameLen := acc.macroName.length
        body := acc.body
        params := if acc.foundParams then some acc.args else none
        nbParams := if acc.foundParams then ((acc.args.filter (fun n => n ≠ -1)).length : Int) else 0 }
    ({ s with buffer := pushNewLine buf, lexer := rest,
              macros := insertMacroDef s.macros acc.macroName md }, none)

/-- The `while self.lexer.in_preprocessor()` loop of the `#undef` handler:
push the whitespace of every directive symbol, re-emit non-newline symbols
without extra whitespace, and stop after removing the first identifier from
the store. -/
def undefLoop (buf : PreprocessorBuffer) (mm : MacrosMap) :
    List Symbol → PreprocessorBuffer × MacrosMap × List Symbol
  | [] => (buf, mm, [])
  | sym :: rest =>
    if !sym.inPre then (buf, mm, sym :: rest)
    else
      let buf := pushWs buf sym
      let buf :=
        if sym.tokenKind ≠ TokenKind.Newline ∧ sym.tokenKind ≠ TokenKind.Eof then
          pushSymbolNoDelta buf sym
        else buf
      if sym.tokenKind = TokenKind.Identifier then (buf, removeMacroDef mm sym.text, rest)
      else undefLoop buf mm rest

/-- The `PreprocDir::MUndef` arm of `process_directive`. -/
def processUndefDirective (s : PPState) (sym : Symbol) : PPState :=
  let buf := pushSymbol s.buffer sym
  let r := undefLoop buf s.macros s.lexer
  { s with buffer := r.1, macros := r.2.1, lexer := r.2.2 }

/-- Characters the include-path scanner treats as whitespace for `trim`. -/
def isWsChar (c : Char) : Bool :=
  c = ' ' ∨ c = '\t' ∨ c = '\r' ∨ c = '\n'

/-- Model of Rust `str::trim` for the ASCII texts of this development. -/
def trimAscii (s : String) : String :=
  String.mk (((s.data.dropWhile isWsChar).reverse.dropWhile isWsChar).reverse)

/-- Collect the characters strictly before the first occurrence of `closeC`,
or `none` if it never occurs. -/
def takeUntilChar (closeC : Char) : List Char → Option (List Char)
  | [] => none
  | c :: rest =>
    if c = closeC then some []
    else (takeUntilChar closeC rest).map (fun l => c :: l)

/-- Modelled from the spec: the `RE_CHEVRON` / `RE_QUOTE` patterns of base_db
match `<...>` respectively `"..."` with a non-empty capture; the result is the
captured path together with its start (inclusive) and end (exclusive)
character positions in the scanned text. -/
def findDelimited (openC closeC : Char) : List Char → Nat → Option (String × Nat × Nat)
  | [], _ => none
  | c :: rest, pos =>
    if c = openC then
      match takeUntilChar closeC rest with
      | some content =>
        if content.isEmpty then findDelimited openC closeC rest (pos + 1)
        else some (String.mk content, pos + 1, pos + 1 + content.length)
      | none => findDelimited openC closeC rest (pos + 1)
    else findDelimited openC closeC rest (pos + 1)

/-- lib.rs `process_include_directive`: match the trimmed inline text of the
directive against the chevron and quote patterns; for each match invoke the
include callback, and on failure record an `UnresolvedIncludeError` scoped to
the path's byte range unless the directive is `#tryinclude`; finally emit the
directive symbol followed by one newline per linebreak of its text. -/
def processIncludeDirective (ctx : Ctx) (s : PPState) (sym : Symbol) (isTry : Bool) : PPState :=
  let text := trimAscii sym.inlineText
  let lineDelta := linebreakCount sym.text
  let s :=
    match findDelimited '<' '>' text.data 0 with
    | some pij =>
      let r := ctx.cb s.macros pij.1 s.fileId false
      let s := { s with macros := r.1 }
      if r.2 then s
      else if isTry then s
      else { s with unresolvedIncludeErrors :=
               s.unresolvedIncludeErrors ++ [(pij.1, (sym.rstart + pij.2.1, sym.rstart + pij.2.2))] }
    | none => s
  let s :=
    match findDelimited '"' '"' text.data 0 with
    | some pij =>
      let r := ctx.cb s.macros pij.1 s.fileId true
      let s := { s with macros := r.1 }
      if r.2 then s
      else if isTry then s
      else { s with unresolvedIncludeErrors :=
               s.unresolvedIncludeErrors ++ [(pij.1, (sym.rstart + pij.2.1, sym.rstart + pij.2.2))] }
    | none => s
  let s := { s with buffer := pushSymbol s.buffer sym }
  { s with buffer := pushNewLines s.buffer lineDelta }

/-- Modelled from the spec: preparation of a macro body before it is pushed
onto the expansion stack by macros.rs `expand_identifier`.  The stored
`Newline`/`Eof` symbols of the directive are not re-emitted (the spec's §8
examples expand `#define FOO 42` to `42` on the invocation line), pushed
symbols carry empty ranges (buffer.rs: "Symbols with empty ranges are
expanded macros"), and the first body symbol inherits the invocation's
whitespace delta (§4.3). -/
def adjustBody (inv : Symbol) (body : List Symbol) : List Symbol :=
  let body := body.filter
    (fun b => b.tokenKind ≠ TokenKind.Newline ∧ b.tokenKind ≠ TokenKind.Eof)
  let body := body.map (fun b => { b with rstart := 0, rend := 0, inPre := false })
  match body with
  | [] => []
  | b :: rest => { b with delta := inv.delta } :: rest

/-- Modelled from the spec: argument scanning of a function-like invocation
(§4.3) — arguments are separated by top-level commas, nested parentheses are
respected, and the scan ends at the matching right parenthesis, whose range
end is returned. -/
def scanArgsAux (depth : Nat) (cur : List Symbol) (acc : List (List Symbol)) :
    List Symbol → Except String (List (List Symbol) × Nat × List Symbol)
  | [] => Except.error "Unexpected end of input while parsing macro arguments"
  | sym :: rest =>
    match sym.tokenKind with
    | TokenKind.RParen =>
      if depth = 0 then Except.ok (acc ++ [cur], sym.rend, rest)
      else scanArgsAux (depth - 1) (cur ++ [sym]) acc rest
    | TokenKind.LParen => scanArgsAux (depth + 1) (cur ++ [sym]) acc rest
    | TokenKind.Comma =>
      if depth = 0 then scanArgsAux depth [] (acc ++ [cur]) rest
      else scanArgsAux depth (cur ++ [sym]) acc rest
    | _ => scanArgsAux depth (cur ++ [sym]) acc rest

/-- Modelled from the spec: argument substitution (§4.3) — a `%` symbol
followed by a digit `d` with `params[d] ≥ 0` is replaced by the tokens of the
argument at positional index `params[d]`; other placeholders and symbols are
kept literally. -/
def substParams (params : List Int) (args : List (List Symbol)) : List Symbol → List Symbol
  | [] => []
  | [sym] => [sym]
  | pct :: d :: rest =>
    if pct.tokenKind = TokenKind.Percent ∧ d.tokenKind = TokenKind.IntLit then
      match d.toIntVal with
      | some k =>
        let idx := params.getD k (-1)
        if idx < 0 then pct :: d :: substParams params args rest
        else (args.getD idx.toNat []) ++ substParams params args rest
      | none => pct :: substParams params args (d :: rest)
    else pct :: substParams params args (d :: rest)

/-- Result of one `expand_identifier` call: the remaining lexer, the symbols
to push onto the expansion stack, and the right-parenthesis offset of a
function-like invocation. -/
structure ExpandOut where
  newLexer : List Symbol
  pushed : List Symbol
  rParen : Option Nat

/-- Modelled from the spec: macros.rs `expand_identifier` (not under src/).
An object-like macro pushes its adjusted body.  A function-like macro whose
invocation is followed by `(` scans and substitutes its arguments and reports
the right parenthesis offset; when no `(` follows, the identifier is a plain
token and is re-pushed so the driver emits it verbatim (the macro is disabled
by the caller, making the re-encounter verbatim). -/
def expandIdentifier (lexer : List Symbol) (md : MacroDef) (sym : Symbol) :
    Except String ExpandOut :=
  match md.params with
  | none => Except.ok { newLexer := lexer, pushed := adjustBody sym md.body, rParen := none }
  | some ps =>
    match lexer with
    | lp :: rest =>
      if lp.tokenKind = TokenKind.LParen then
        match scanArgsAux 0 [] [] rest with
        | Except.error e => Except.error e
        | Except.ok r =>
          Except.ok { newLexer := r.2.2,
                      pushed := adjustBody sym (substParams ps r.1 md.body),
                      rParen := some r.2.1 }
      else Except.ok { newLexer := lexer, pushed := [sym], rParen := none }
    | [] => Except.ok { newLexer := [], pushed := [sym], rParen := none }

/-- The fixed replacement emitted for `using __intrinsics__.Handle;`. -/
def methodmapText : String :=
  "methodmap Handle __nullable__ \x7bpublic native ~Handle();public native void Close();\x7d;"

/-- The `TokenKind::Identifier` arm of the driver (lib.rs lines 225-289):
the intrinsics hook runs first; a disabled macro is re-enabled and its name
emitted verbatim; otherwise `expand_identifier` runs, the invocation range is
widened to the right parenthesis when one was consumed, and the pending
expansion record is (re)set. -/
def processIdentifier (ctx : Ctx) (s : PPState) (sym : Symbol) : PPState :=
  if s.intrinsicsStatus = some IntrinsicsParseStatus.Dot then
    let s :=
      if sym.text = "Handle" then { s with buffer := pushStr s.buffer methodmapText } else s
    { s with intrinsicsStatus := some IntrinsicsParseStatus.Handle }
  else
    match lookupMacroDef s.macros sym.text with
    | some md =>
      if s.disabled.contains sym.text then
        { s with disabled := s.disabled.erase sym.text, buffer := pushSymbol s.buffer sym }
      else
        match expandIdentifier s.lexer md sym with
        | Except.ok eo =>
          let widened :=
            match eo.rParen with
            | some rp => if sym.rstart ≤ rp then { sym with rend := rp } else sym
            | none => sym
          { s with lexer := eo.newLexer,
                   expansionStack := eo.pushed ++ s.expansionStack,
                   disabled := sym.text :: s.disabled,
                   pendingExpansion := some (widened, sym.text, s.buffer.offset),
                   expansionEvents := s.expansionEvents ++ [sym.text] }
        | Except.error _ => { s with halted := some true }
    | none => { s with buffer := pushSymbol s.buffer sym }

/-- lib.rs `process_directive`: dispatch on the directive kind; `MPragma`
stands for the "other directives are emitted verbatim" arm. -/
def processDirective (ctx : Ctx) (s : PPState) (d : PreprocDir) (sym : Symbol) :
    PPState × Option String :=
  match d with
  | PreprocDir.MDefine => processDefineDirective s sym
  | PreprocDir.MUndef => (processUndefDirective s sym, none)
  | PreprocDir.MIf => (processIfDirective ctx s sym, none)
  | PreprocDir.MElseif => processElseifDirective ctx s sym
  | PreprocDir.MElse => processElseDirective s sym
  | PreprocDir.MEndif => (processEndifDirective s sym, none)
  | PreprocDir.MInclude => (processIncludeDirective ctx s sym false, none)
  | PreprocDir.MTryinclude => (processIncludeDirective ctx s sym true, none)
  | PreprocDir.MPragma => ({ s with buffer := pushSymbol s.buffer sym }, none)

/-- The body of the driver loop for one drawn symbol (lib.rs lines 212-321):
skipped branches go to `process_negative_condition`; otherwise dispatch on
the token kind, with the intrinsics micro-parser on
`Using`/`Intrinsics`/`Dot`/`Semicolon` and termination on `Eof`. -/
def processSymbol (ctx : Ctx) (s : PPState) (sym : Symbol) : PPState :=
  if topIsActivatedOrNotActivated s.conditionsStack then
    let r := processNegativeCondition ctx s sym
    match r.2 with
    | some _ => { r.1 with halted := some true }
    | none => r.1
  else
    match sym.tokenKind with
    | TokenKind.Unknown => { s with halted := some true }
    | TokenKind.PreprocDir d =>
      let r := processDirective ctx s d sym
      match r.2 with
      | some _ => { r.1 with halted := some true }
      | none => r.1
    | TokenKind.Identifier => processIdentifier ctx s sym
    | TokenKind.Using =>
      match s.intrinsicsStatus with
      | none => { s with intrinsicsStatus := some IntrinsicsParseStatus.Using }
      | some _ => { s with intrinsicsStatus := none }
    | TokenKind.Intrinsics =>
      if s.intrinsicsStatus = some IntrinsicsParseStatus.Using then
        { s with intrinsicsStatus := some IntrinsicsParseStatus.Intrinsics }
      else { s with intrinsicsStatus := none }
    | TokenKind.Semicolon =>
      if s.intrinsicsStatus = some IntrinsicsParseStatus.Handle then
        { s with intrinsicsStatus := none }
      else { s with intrinsicsStatus := none, buffer := pushSymbol s.buffer sym }
    | TokenKind.Dot =>
      match s.intrinsicsStatus with
      | some IntrinsicsParseStatus.Intrinsics =>
        { s with intrinsicsStatus := some IntrinsicsParseStatus.Dot }
      | _ => { s with buffer := pushSymbol s.buffer sym }
    | TokenKind.Eof => { s with buffer := pushSymbol s.buffer sym, halted := some false }
    | TokenKind.Newline => { s with buffer := pushSymbol s.buffer sym }
    | _ => { s with buffer := pushSymbol s.buffer sym }

/-- Closing out a completed macro expansion when the next symbol comes from
the lexer (lib.rs lines 201-209). -/
def flushPending (s : PPState) : PPState :=
  match s.pendingExpansion with
  | none => s
  | some p =>
    { s with buffer := pushExpandedSymbol s.buffer (p.1.rstart, p.1.rend) p.2.2 s.buffer.offset p.2.1,
             pendingExpansion := none }

/-- One iteration of the driver loop: draw from the expansion stack if
non-empty, otherwise flush the pending expansion record and draw from the
lexer (an exhausted lexer ends the loop); a halted state is absorbing. -/
def step (ctx : Ctx) (s : PPState) : PPState :=
  if s.halted.isSome then s
  else
    match s.expansionStack with
    | sym :: rest => processSymbol ctx { s with expansionStack := rest } sym
    | [] =>
      let s := flushPending s
      match s.lexer with
      | [] => { s with halted := some false }
      | sym :: rest => processSymbol ctx { s with lexer := rest } sym

/-- Run `n` iterations of the driver loop. -/
def runN (ctx : Ctx) : Nat → PPState → PPState
  | 0, s => s
  | n + 1, s => runN ctx n (step ctx s)

/-- lib.rs `include_sourcemod`: invoke the include callback for the implicit
root library, ignoring its result entirely. -/
def includeSourcemod (ctx : Ctx) (s : PPState) : PPState :=
  { s with macros := (ctx.cb s.macros "sourcemod" s.fileId false).1 }

/-- Spec-modelled sort of conditions.rs `sort_skipped_ranges`: sort the flat
skipped-ranges list by start offset. -/
def sortSkippedRanges (rs : List (Nat × Nat)) : List (Nat × Nat) :=
  rs.insertionSort (fun a b => a.1 ≤ b.1)

/-- The coalescing loop of lib.rs `get_inactive_ranges`, with the accumulator
kept in reverse so the vector's pop/push on the back is the list head. -/
def coalesceRev : List (Nat × Nat) → List (Nat × Nat) → List (Nat × Nat)
  | acc, [] => acc
  | [], r :: rest => coalesceRev [r] rest
  | lastRange :: prev, r :: rest =>
    if r.1 ≤ lastRange.2 then
      coalesceRev ((lastRange.1, max lastRange.2 r.2) :: prev) rest
    else
      coalesceRev (r :: lastRange :: prev) rest

/-- lib.rs `get_inactive_ranges`: sort the skipped ranges, then merge a range
into the last accumulated one whenever it starts at or before that range's
end. -/
def getInactiveRanges (rs : List (Nat × Nat)) : List (Nat × Nat) :=
  match sortSkippedRanges rs with
  | [] => []
  | first :: restSorted => (coalesceRev [first] (first :: restSorted)).reverse

/-- The immutable outputs carried out of one `preprocess_input` call
(result.rs `PreprocessingResult`, assembled by `SourcepawnPreprocessor::result`). -/
structure PreprocessingResult where
  text : String
  macros : MacrosMap
  sourceMap : List ((Nat × Nat) × (Nat × Nat))
  expandedRecords : List ((Nat × Nat) × Nat × Nat × String)
  macroNotFoundErrors : List String
  unresolvedIncludeErrors : List (String × (Nat × Nat))
  evaluationErrors : List String
  inactiveRanges : List (Nat × Nat)

/-- `SourcepawnPreprocessor::result` / `error_result` (identical in lib.rs):
package the buffer, store, errors and coalesced inactive ranges. -/
def finalize (s : PPState) : PreprocessingResult :=
  { text := s.buffer.contents
    macros := s.macros
    sourceMap := s.buffer.sourceMap
    expandedRecords := s.buffer.expandedRecords
    macroNotFoundErrors := s.macroNotFoundErrors
    unresolvedIncludeErrors := s.unresolvedIncludeErrors
    evaluationErrors := s.evaluationErrors
    inactiveRanges := getInactiveRanges s.skippedRanges }

/-- lib.rs `preprocess_input`: pre-load the root library, then drive the loop
(`fuel` bounds the number of iterations; every claim about a complete run
checks that the loop actually halted). -/
def preprocessInput (ctx : Ctx) (fuel : Nat) (fid : Nat) (lexer : List Symbol) :
    PreprocessingResult :=
  finalize (runN ctx fuel (includeSourcemod ctx (initState fid lexer)))

/-- The final state of a run, for claims about driver state. -/
def runInput (ctx : Ctx) (fuel : Nat) (fid : Nat) (lexer : List Symbol) : PPState :=
  runN ctx fuel (includeSourcemod ctx (initState fid lexer))

def isNewlineTok : TokenKind → Bool
  | TokenKind.Newline => true
  | _ => false

/-- Modelled from the spec: the `IfCondition` evaluator of evaluator.rs,
restricted to the fragment the studied inputs use.  A condition consisting of
a single integer literal (ignoring the newline tokens collected with the
directive) evaluates to its non-zero-ness; anything else is a parse error
carrying the condition text.  `line_continuation_count` is the number of
newline tokens collected while scanning the directive, so that the driver
re-emits one newline per scanned linebreak (§4.4). -/
def specEval (syms : List Symbol) : EvalOut :=
  let nls := syms.countP (fun sym => isNewlineTok sym.tokenKind)
  let core := syms.filter
    (fun sym => sym.tokenKind ≠ TokenKind.Newline ∧ sym.tokenKind ≠ TokenKind.Eof)
  let res : Except String Bool :=
    match core with
    | [one] =>
      if one.tokenKind = TokenKind.IntLit then
        match one.toIntVal with
        | some v => Except.ok (v ≠ 0)
        | none => Except.error one.text
      else Except.error one.text
    | _ => Except.error (String.join (core.map (fun sym => sym.text)))
  { result := res, macroNotFound := [], lineContinuations := nls }

/-- An include callback that never resolves anything and leaves the store
unchanged. -/
def cbFailAll : MacrosMap → String → Nat → Bool → MacrosMap × Bool :=
  fun mm _ _ _ => (mm, false)

/-- The concrete context used by the literal-input scenarios. -/
def ctxSpec : Ctx :=
  { ev := specEval, cb := cbFailAll }

/-- The source text a symbol list was lexed from, under the lexer model in
which every inter-symbol whitespace byte is a space: each symbol contributes
`delta` spaces followed by its text. -/
def renderInput : List Symbol → String
  | [] => ""
  | sym :: rest => spacesStr sym.delta.natAbs ++ sym.text ++ renderInput rest

/-- Substring containment, stated on the character lists. -/
def containsStr (hay sub : String) : Prop :=
  sub.data <:+: hay.data

instance (hay sub : String) : Decidable (containsStr hay sub) :=
  List.decidableInfix sub.data hay.data

def isDirectiveTok : TokenKind → Bool
  | TokenKind.PreprocDir _ => true
  | _ => false

/-- Shorthand symbol constructor for the literal scenarios. -/
def mkSym (k : TokenKind) (t : String) (a b : Nat) (d : Int) (p : Bool) : Symbol :=
  { tokenKind := k, text := t, rstart := a, rend := b, delta := d, inPre := p }

/-- Lexing of `#if 0\n#if 1\nx;\n#endif\n#endif\ny;\n` (spec §8, nested `#if`
inside a skipped branch). -/
def inputC3 : List Symbol :=
  [ mkSym (TokenKind.PreprocDir PreprocDir.MIf) "#if" 0 3 0 false
  , mkSym TokenKind.IntLit "0" 4 5 1 true
  , mkSym TokenKind.Newline "\n" 5 6 0 true
  , mkSym (TokenKind.PreprocDir PreprocDir.MIf) "#if" 6 9 0 false
  , mkSym TokenKind.IntLit "1" 10 11 1 true
  , mkSym TokenKind.Newline "\n" 11 12 0 true
  , mkSym TokenKind.Identifier "x" 12 13 0 false
  , mkSym TokenKind.Semicolon ";" 13 14 0 false
  , mkSym TokenKind.Newline "\n" 14 15 0 false
  , mkSym (TokenKind.PreprocDir PreprocDir.MEndif) "#endif" 15 21 0 false
  , mkSym TokenKind.Newline "\n" 21 22 0 false
  , mkSym (TokenKind.PreprocDir PreprocDir.MEndif) "#endif" 22 28 0 false
  , mkSym TokenKind.Newline "\n" 28 29 0 false
  , mkSym TokenKind.Identifier "y" 29 30 0 false
  , mkSym TokenKind.Semicolon ";" 30 31 0 false
  , mkSym TokenKind.Newline "\n" 31 32 0 false
  , mkSym TokenKind.Eof "" 32 32 0 false ]

/-- Lexing of `#if 0\nx\n#endif\ny\n`: a conditional whose skipped branch
contains one newline. -/
def inputC1 : List Symbol :=
  [ mkSym (TokenKind.PreprocDir PreprocDir.MIf) "#if" 0 3 0 false
  , mkSym TokenKind.IntLit "0" 4 5 1 true
  , mkSym TokenKind.Newline "\n" 5 6 0 true
  , mkSym TokenKind.Identifier "x" 6 7 0 false
  , mkSym TokenKind.Newline "\n" 7 8 0 false
  , mkSym (TokenKind.PreprocDir PreprocDir.MEndif) "#endif" 8 14 0 false
  , mkSym TokenKind.Newline "\n" 14 15 0 false
  , mkSym TokenKind.Identifier "y" 15 16 0 false
  , mkSym TokenKind.Newline "\n" 16 17 0 false
  , mkSym TokenKind.Eof "" 17 17 0 false ]

/-- Lexing of `#define F F+F\nint r = F;\n`: a macro whose body contains its
own name twice. -/
def inputC4bad : List Symbol :=
  [ mkSym (TokenKind.PreprocDir PreprocDir.MDefine) "#define" 0 7 0 false
  , mkSym TokenKind.Identifier "F" 8 9 1 true
  , mkSym TokenKind.Identifier "F" 10 11 1 true
  , mkSym TokenKind.Other "+" 11 12 0 true
  , mkSym TokenKind.Identifier "F" 12 13 0 true
  , mkSym TokenKind.Newline "\n" 13 14 0 true
  , mkSym TokenKind.Identifier "int" 14 17 0 false
  , mkSym TokenKind.Identifier "r" 18 19 1 false
  , mkSym TokenKind.Other "=" 20 21 1 false
  , mkSym TokenKind.Identifier "F" 22 23 1 false
  , mkSym TokenKind.Semicolon ";" 23 24 0 false
  , mkSym TokenKind.Newline "\n" 24 25 0 false
  , mkSym TokenKind.Eof "" 25 25 0 false ]

/-- Lexing of `#define F F+1\nint r = F;\n` (spec §8, self-recursive macro). -/
def inputC4ex : List Symbol :=
  [ mkSym (TokenKind.PreprocDir PreprocDir.MDefine) "#define" 0 7 0 false
  , mkSym TokenKind.Identifier "F" 8 9 1 true
  , mkSym TokenKind.Identifier "F" 10 11 1 true
  , mkSym TokenKind.Other "+" 11 12 0 true
  , mkSym TokenKind.IntLit "1" 12 13 0 true
  , mkSym TokenKind.Newline "\n" 13 14 0 true
  , mkSym TokenKind.Identifier "int" 14 17 0 false
  , mkSym TokenKind.Identifier "r" 18 19 1 false
  , mkSym TokenKind.Other "=" 20 21 1 false
  , mkSym TokenKind.Identifier "F" 22 23 1 false
  , mkSym TokenKind.Semicolon ";" 23 24 0 false
  , mkSym TokenKind.Newline "\n" 24 25 0 false
  , mkSym TokenKind.Eof "" 25 25 0 false ]

/-- Lexing of `using x;\n`: no directive, no macro invocation, but a `using`
keyword. -/
def inputC5 : List Symbol :=
  [ mkSym TokenKind.Using "using" 0 5 0 false
  , mkSym TokenKind.Identifier "x" 6 7 1 false
  , mkSym TokenKind.Semicolon ";" 7 8 0 false
  , mkSym TokenKind.Newline "\n" 8 9 0 false
  , mkSym TokenKind.Eof "" 9 9 0 false ]

/-- Lexing of `__intrinsics__ w;\n`: an `Intrinsics` keyword arriving with the
micro-parser in its initial (non-matching) position. -/
def inputC6 : List Symbol :=
  [ mkSym TokenKind.Intrinsics "__intrinsics__" 0 14 0 false
  , mkSym TokenKind.Identifier "w" 15 16 1 false
  , mkSym TokenKind.Semicolon ";" 16 17 0 false
  , mkSym TokenKind.Newline "\n" 17 18 0 false
  , mkSym TokenKind.Eof "" 18 18 0 false ]

/-- Lexing of `using __intrinsics__.Handle;\nk;\n` (the full intrinsics
sequence followed by ordinary text). -/
def inputC6full : List Symbol :=
  [ mkSym TokenKind.Using "using" 0 5 0 false
  , mkSym TokenKind.Intrinsics "__intrinsics__" 6 20 1 false
  , mkSym TokenKind.Dot "." 20 21 0 false
  , mkSym TokenKind.Identifier "Handle" 21 27 0 false
  , mkSym TokenKind.Semicolon ";" 27 28 0 false
  , mkSym TokenKind.Newline "\n" 28 29 0 false
  , mkSym TokenKind.Identifier "k" 29 30 0 false
  , mkSym TokenKind.Semicolon ";" 30 31 0 false
  , mkSym TokenKind.Newline "\n" 31 32 0 false
  , mkSym TokenKind.Eof "" 32 32 0 false ]

/-- Lexing of `#tryinclude "nope"\nint z;\n` (spec §8, tryinclude of a
missing file). -/
def inputC7 : List Symbol :=
  [ mkSym (TokenKind.PreprocDir PreprocDir.MTryinclude) "#tryinclude \"nope\"" 0 18 0 false
  , mkSym TokenKind.Newline "\n" 18 19 0 false
  , mkSym TokenKind.Identifier "int" 19 22 0 false
  , mkSym TokenKind.Identifier "z" 23 24 1 false
  , mkSym TokenKind.Semicolon ";" 24 25 0 false
  , mkSym TokenKind.Newline "\n" 25 26 0 false
  , mkSym TokenKind.Eof "" 26 26 0 false ]

/-- The directive symbol of `#include "nope"`. -/
def includeNopeSym : Symbol :=
  mkSym (TokenKind.PreprocDir PreprocDir.MInclude) "#include \"nope\"" 0 15 0 false

/-! ## Coalescing of inactive ranges (claim C2) -/

theorem sortSkippedRanges_sorted (rs : List (Nat × Nat)) :
    List.Pairwise (fun a b : Nat × Nat => a.1 ≤ b.1) (sortSkippedRanges rs) := by
  haveI : IsTotal (Nat × Nat) (fun a b : Nat × Nat => a.1 ≤ b.1) :=
    ⟨fun a b => Nat.le_total a.1 b.1⟩
  haveI : IsTrans (Nat × Nat) (fun a b : Nat × Nat => a.1 ≤ b.1) :=
    ⟨fun a b c hab hbc => Nat.le_trans hab hbc⟩
  exact List.sorted_insertionSort _ rs

theorem coalesceRev_pairwise :
    ∀ (rs acc : List (Nat × Nat)),
      List.Pairwise (fun a b : Nat × Nat => b.1 ≤ a.1 ∧ b.2 < a.1) acc →
      (∀ a ∈ acc, ∀ r ∈ rs, a.1 ≤ r.1) →
      List.Pairwise (fun a b : Nat × Nat => a.1 ≤ b.1) rs →
      List.Pairwise (fun a b : Nat × Nat => b.1 ≤ a.1 ∧ b.2 < a.1) (coalesceRev acc rs) := by
  intro rs
  induction rs with
  | nil =>
    intro acc hacc _ _
    simpa [coalesceRev] using hacc
  | cons r rest ih =>
    intro acc hacc hcompat hsorted
    obtain ⟨hr, hrest⟩ := List.pairwise_cons.mp hsorted
    match acc with
    | [] =>
      show List.Pairwise _ (coalesceRev [r] rest)
      apply ih
      · exact List.pairwise_singleton _ r
      · intro a ha r2 hr2
        rcases List.mem_singleton.mp ha with rfl
        exact hr r2 hr2
      · exact hrest
    | lastR :: prev =>
      obtain ⟨hlast, hprev⟩ := List.pairwise_cons.mp hacc
      by_cases hmerge : r.1 ≤ lastR.2
      · have hgoal : coalesceRev (lastR :: prev) (r :: rest) =
            coalesceRev ((lastR.1, max lastR.2 r.2) :: prev) rest := by
          simp [coalesceRev, hmerge]
        rw [hgoal]
        apply ih
        · refine List.pairwise_cons.mpr ⟨?_, hprev⟩
          intro p hp
          exact hlast p hp
        · intro a ha r2 hr2
          rcases List.mem_cons.mp ha with rfl | hp
          · exact hcompat lastR (List.mem_cons_self _ _) r2 (List.mem_cons_of_mem _ hr2)
          · exact hcompat a (List.mem_cons_of_mem _ hp) r2 (List.mem_cons_of_mem _ hr2)
        · exact hrest
      · have hgoal : coalesceRev (lastR :: prev) (r :: rest) =
            coalesceRev (r :: lastR :: prev) rest := by
          simp [coalesceRev, hmerge]
        rw [hgoal]
        have hlastR1 : lastR.1 ≤ r.1 :=
          hcompat lastR (List.mem_cons_self _ _) r (List.mem_cons_self _ _)
        apply ih
        · refine List.pairwise_cons.mpr ⟨?_, hacc⟩
          intro b hb
          rcases List.mem_cons.mp hb with rfl | hp
          · exact ⟨hlastR1, Nat.lt_of_not_le hmerge⟩
          · obtain ⟨h1, h2⟩ := hlast b hp
            exact ⟨Nat.le_trans h1 hlastR1, Nat.lt_of_lt_of_le h2 hlastR1⟩
        · intro a ha r2 hr2
          rcases List.mem_cons.mp ha with rfl | hp
          · exact hr r2 hr2
          · exact hcompat a hp r2 (List.mem_cons_of_mem _ hr2)
        · exact hrest

theorem getInactiveRanges_pairwise (rs : List (Nat × Nat)) :
    List.Pairwise (fun a b : Nat × Nat => a.1 ≤ b.1 ∧ a.2 < b.1) (getInactiveRanges rs) := by
  unfold getInactiveRanges
  cases hs : sortSkippedRanges rs with
  | nil => simp
  | cons first restS =>
    rw [List.pairwise_reverse]
    have hsorted : List.Pairwise (fun a b : Nat × Nat => a.1 ≤ b.1) (first :: restS) := by
      rw [← hs]; exact sortSkippedRanges_sorted rs
    apply coalesceRev_pairwise
    · exact List.pairwise_singleton _ first
    · intro a ha r2 hr2
      rcases List.mem_singleton.mp ha with rfl
      rcases List.mem_cons.mp hr2 with rfl | h2
      · exact Nat.le_refl _
      · exact (List.pairwise_cons.mp hsorted).1 r2 h2
    · exact hsorted

/-- C2: for every run of the preprocessor, the `inactive_ranges` of the final
`PreprocessingResult` are sorted by start offset and every pair of distinct
entries is non-overlapping and non-touching: each entry's end offset is
strictly below the start offset of every later entry (overlapping or touching
skipped ranges having been merged by `get_inactive_ranges`). -/
theorem inactiveRanges_sorted_and_disjoint (ctx : Ctx) (fuel fid : Nat) (lexer : List Symbol) :
    List.Pairwise (fun a b : Nat × Nat => a.1 ≤ b.1 ∧ a.2 < b.1)
      (preprocessInput ctx fuel fid lexer).inactiveRanges :=
  getInactiveRanges_pairwise _

/-- C3: on the lexing of `#if 0\n#if 1\nx;\n#endif\n#endif\ny;\n` the driver
terminates normally, the output text contains `y;` and does not contain `x;`,
and the three error lists of the result are all empty: the nested `#if` seen
inside the skipped branch pushes an `Activated` level, so the first `#endif`
pops that level and the outer `#endif` closes the skipped region. -/
theorem nested_if_inside_skipped_branch :
    renderInput inputC3 = "#if 0\n#if 1\nx;\n#endif\n#endif\ny;\n"
    ∧ (runInput ctxSpec 50 0 inputC3).halted = some false
    ∧ containsStr (preprocessInput ctxSpec 50 0 inputC3).text "y;"
    ∧ ¬ containsStr (preprocessInput ctxSpec 50 0 inputC3).text "x;"
    ∧ (preprocessInput ctxSpec 50 0 inputC3).macroNotFoundErrors = []
    ∧ (preprocessInput ctxSpec 50 0 inputC3).unresolvedIncludeErrors = []
    ∧ (preprocessInput ctxSpec 50 0 inputC3).evaluationErrors = [] := by
  decide

/-- C8: `#elseif` and `#else` processed with an empty condition stack bail
with an error (the driver turns the bail into an aborted run,
`halted = some true`, which yields `error_result`), whereas `#endif` with an
empty condition stack is silently ignored: the handler succeeds and the
driver state is completely unchanged, so preprocessing continues normally. -/
theorem elseif_else_strict_endif_tolerant (ctx : Ctx) (s : PPState) (sym : Symbol)
    (h : s.conditionsStack = []) :
    (processElseifDirective ctx s sym).2.isSome = true
    ∧ (processElseifDirective ctx s sym).1 = s
    ∧ (processElseDirective s sym).2.isSome = true
    ∧ (processElseDirective s sym).1 = s
    ∧ processEndifDirective s sym = s
    ∧ (sym.tokenKind = TokenKind.PreprocDir PreprocDir.MElseif →
        processSymbol ctx s sym = { s with halted := some true })
    ∧ (sym.tokenKind = TokenKind.PreprocDir PreprocDir.MElse →
        processSymbol ctx s sym = { s with halted := some true })
    ∧ (sym.tokenKind = TokenKind.PreprocDir PreprocDir.MEndif →
        processSymbol ctx s sym = s) := by
  refine ⟨?_, ?_, ?_, ?_, ?_, ?_, ?_, ?_⟩
  · simp [processElseifDirective, h]
  · simp [processElseifDirective, h]
  · simp [processElseDirective, h]
  · simp [processElseDirective, h]
  · simp [processEndifDirective, h]
  · intro heq
    simp [processSymbol, topIsActivatedOrNotActivated, h, heq, processDirective,
      processElseifDirective]
  · intro heq
    simp [processSymbol, topIsActivatedOrNotActivated, h, heq, processDirective,
      processElseDirective]
  · intro heq
    simp [processSymbol, topIsActivatedOrNotActivated, h, heq, processDirective,
      processEndifDirective]

/-- Witness for C8 at a concrete empty-stack state and concrete directive
symbols. -/
theorem elseif_else_strict_endif_tolerant_witness :
    (initState 0 []).conditionsStack = []
    ∧ (processElseifDirective ctxSpec (initState 0 [])
        (mkSym (TokenKind.PreprocDir PreprocDir.MElseif) "#elseif" 0 7 0 false)).2.isSome = true
    ∧ processEndifDirective (initState 0 [])
        (mkSym (TokenKind.PreprocDir PreprocDir.MEndif) "#endif" 0 6 0 false) = initState 0 [] := by
  refine ⟨rfl, ?_, ?_⟩
  · exact (elseif_else_strict_endif_tolerant ctxSpec (initState 0 [])
      (mkSym (TokenKind.PreprocDir PreprocDir.MElseif) "#elseif" 0 7 0 false) rfl).1
  · exact (elseif_else_strict_endif_tolerant ctxSpec (initState 0 [])
      (mkSym (TokenKind.PreprocDir PreprocDir.MEndif) "#endif" 0 6 0 false) rfl).2.2.2.2.1

/-- C9: whenever the evaluation of an `#if` condition fails, the condition
state pushed onto the stack is `NotActivated` (the condition defaults to
false), the evaluation error is appended to the `evaluation_errors` list, and
the handler neither aborts nor halts the driver (`process_directive` returns
success for `#if`). -/
theorem if_evaluation_failure_defaults_to_false (ctx : Ctx) (s : PPState) (sym : Symbol)
    (e : String) (h : (ctx.ev (collectCond s.lexer).1).result = Except.error e) :
    (processIfDirective ctx s sym).conditionsStack
        = ConditionState.NotActivated :: s.conditionsStack
    ∧ (processIfDirective ctx s sym).evaluationErrors = s.evaluationErrors ++ [e]
    ∧ (processIfDirective ctx s sym).halted = s.halted
    ∧ (processDirective ctx s PreprocDir.MIf sym).2 = none
    ∧ (processDirective ctx s PreprocDir.MIf sym).1 = processIfDirective ctx s sym := by
  refine ⟨?_, ?_, ?_, rfl, rfl⟩ <;>
    simp [processIfDirective, h]

/-- Witness for C9 with an evaluator that concretely fails. -/
theorem if_evaluation_failure_witness :
    ((Ctx.mk (fun _ => ⟨Except.error "bad", [], 0⟩) cbFailAll).ev
        (collectCond (initState 0 []).lexer).1).result = Except.error "bad"
    ∧ (processIfDirective (Ctx.mk (fun _ => ⟨Except.error "bad", [], 0⟩) cbFailAll)
        (initState 0 []) (mkSym (TokenKind.PreprocDir PreprocDir.MIf) "#if" 0 3 0 false)).conditionsStack
        = [ConditionState.NotActivated] := by
  refine ⟨rfl, ?_⟩
  exact (if_evaluation_failure_defaults_to_false _ (initState 0 [])
    (mkSym (TokenKind.PreprocDir PreprocDir.MIf) "#if" 0 3 0 false) "bad" rfl).1

/-- C10: the implicit pre-load include of the root library name `sourcemod`,
performed before any input symbol is consumed, ignores the include callback's
result entirely: even when the callback fails, no `UnresolvedIncludeError`
(and no other error) is recorded, only the macro store is updated, and
`preprocess_input` proceeds into the main loop from that state. -/
theorem sourcemod_preload_ignores_failure (ctx : Ctx) (fid fuel : Nat) (lexer : List Symbol)
    (h : (ctx.cb [] "sourcemod" fid false).2 = false) :
    (includeSourcemod ctx (initState fid lexer)).unresolvedIncludeErrors = []
    ∧ (includeSourcemod ctx (initState fid lexer)).macroNotFoundErrors = []
    ∧ (includeSourcemod ctx (initState fid lexer)).evaluationErrors = []
    ∧ (includeSourcemod ctx (initState fid lexer)).halted = none
    ∧ includeSourcemod ctx (initState fid lexer)
        = { initState fid lexer with macros := (ctx.cb [] "sourcemod" fid false).1 }
    ∧ preprocessInput ctx fuel fid lexer
        = finalize (runN ctx fuel (includeSourcemod ctx (initState fid lexer))) :=
  ⟨rfl, rfl, rfl, rfl, rfl, rfl⟩

/-- Witness for C10 with the always-failing callback. -/
theorem sourcemod_preload_ignores_failure_witness :
    (ctxSpec.cb [] "sourcemod" 0 false).2 = false
    ∧ (includeSourcemod ctxSpec (initState 0 [])).unresolvedIncludeErrors = [] :=
  ⟨rfl, (sourcemod_preload_ignores_failure ctxSpec 0 0 [] rfl).1⟩

/-- C7: when the include callback fails on the quoted path of an `#include`
directive, an `UnresolvedIncludeError` is appended whose range is the byte
range of the path text inside the directive symbol (directive start plus the
capture positions inside its text, which is the range of the path in the
original source), and the handler completes so preprocessing continues; for
`#tryinclude` the same failure records nothing.  On the concrete input
`#tryinclude "nope"\nint z;\n` with a failing callback the run completes,
the output contains `int z;`, and `unresolved_include_errors` is empty. -/
theorem include_failure_recorded_tryinclude_suppressed (ctx : Ctx) (s : PPState) (sym : Symbol)
    (p : String) (i j : Nat)
    (hq : findDelimited '"' '"' (trimAscii sym.inlineText).data 0 = some (p, i, j))
    (hc : findDelimited '<' '>' (trimAscii sym.inlineText).data 0 = none)
    (hfail : (ctx.cb s.macros p s.fileId true).2 = false) :
    (processIncludeDirective ctx s sym false).unresolvedIncludeErrors
        = s.unresolvedIncludeErrors ++ [(p, (sym.rstart + i, sym.rstart + j))]
    ∧ (processIncludeDirective ctx s sym true).unresolvedIncludeErrors
        = s.unresolvedIncludeErrors
    ∧ (processDirective ctx s PreprocDir.MInclude sym).2 = none
    ∧ (processDirective ctx s PreprocDir.MTryinclude sym).2 = none
    ∧ (runInput ctxSpec 20 0 inputC7).halted = some false
    ∧ containsStr (preprocessInput ctxSpec 20 0 inputC7).text "int z;"
    ∧ (preprocessInput ctxSpec 20 0 inputC7).unresolvedIncludeErrors = [] := by
  refine ⟨?_, ?_, rfl, rfl, by decide, by decide, by decide⟩
  · simp [processIncludeDirective, hq, hc, hfail, pushSymbol,
      pushNewLine, pushWs, pushSymbolNoDelta]
  · simp [processIncludeDirective, hq, hc, hfail, pushSymbol,
      pushNewLine, pushWs, pushSymbolNoDelta]

/-- Witness for C7: the `#include "nope"` directive symbol against the
always-failing callback records exactly the path range `[10, 14)`. -/
theorem include_failure_recorded_witness :
    findDelimited '"' '"' (trimAscii includeNopeSym.inlineText).data 0 = some ("nope", 10, 14)
    ∧ findDelimited '<' '>' (trimAscii includeNopeSym.inlineText).data 0 = none
    ∧ (ctxSpec.cb (initState 0 []).macros "nope" (initState 0 []).fileId true).2 = false
    ∧ (processIncludeDirective ctxSpec (initState 0 []) includeNopeSym false).unresolvedIncludeErrors
        = [("nope", (10, 14))] := by
  refine ⟨by decide, by decide, rfl, ?_⟩
  exact (include_failure_recorded_tryinclude_suppressed ctxSpec (initState 0 [])
    includeNopeSym "nope" 10 14 (by decide) (by decide) rfl).1

/-- Counterexample to C1 as stated: on the lexing of `#if 0\nx\n#endif\ny\n`
(which renders back to an input with 4 newline bytes) the run completes
normally but the output also has only 4 newline bytes, not 4 + 1: the newline
of the skipped line `x\n` arrives while the condition-stack top is
`NotActivated` and `process_negative_condition` drops it without emitting
anything. -/
theorem newline_preservation_cex :
    (runInput ctxSpec 50 0 inputC1).halted = some false
    ∧ renderInput inputC1 = "#if 0\nx\n#endif\ny\n"
    ∧ linebreakCount (renderInput inputC1) = 4
    ∧ linebreakCount (preprocessInput ctxSpec 50 0 inputC1).text = 4
    ∧ linebreakCount (preprocessInput ctxSpec 50 0 inputC1).text
        ≠ linebreakCount (renderInput inputC1) + 1 := by
  decide

/-- Counterexample to C4 as stated: after `#define F F+F` (a macro whose body
contains its own name, twice), the single invocation site `F` in `int r = F;`
triggers at least two `expand_identifier` calls for `F` — the first body
occurrence of `F` is emitted verbatim and re-enables the macro, so the second
body occurrence expands again, and the expansion never stops (the run is
still unfinished, `halted = none`, after 30 driver steps). -/
theorem self_recursive_expands_once_cex :
    ((lookupMacroDef (runInput ctxSpec 30 0 inputC4bad).macros "F").map
        (fun md => md.body.countP
          (fun b => b.tokenKind == TokenKind.Identifier && b.text == "F"))) = some 2
    ∧ 2 ≤ (runInput ctxSpec 30 0 inputC4bad).expansionEvents.count "F"
    ∧ (runInput ctxSpec 30 0 inputC4bad).halted = none := by
  decide

/-- Counterexample to C5 as stated: the lexing of `using x;\n` contains no
preprocessor directive and no macro invocation (the store stays empty), yet
the output is not the input plus a trailing newline — the `using` keyword is
consumed by the intrinsics micro-parser and never emitted. -/
theorem directive_free_roundtrip_cex :
    inputC5.all (fun sym => !(isDirectiveTok sym.tokenKind)) = true
    ∧ (runInput ctxSpec 20 0 inputC5).macros = []
    ∧ renderInput inputC5 = "using x;\n"
    ∧ (preprocessInput ctxSpec 20 0 inputC5).text = " x;\n\n"
    ∧ (preprocessInput ctxSpec 20 0 inputC5).text ≠ renderInput inputC5 ++ "\n" := by
  decide

/-- Counterexample to C6 as stated: an `Intrinsics` symbol arriving with the
micro-parser in its initial position (not a matching position: matching
requires a preceding `using`) is not emitted verbatim — it is silently
consumed, and `__intrinsics__` is absent from the output. -/
theorem intrinsics_verbatim_cex :
    (runInput ctxSpec 20 0 inputC6).halted = some false
    ∧ (preprocessInput ctxSpec 20 0 inputC6).text = " w;\n\n"
    ∧ ¬ containsStr (preprocessInput ctxSpec 20 0 inputC6).text "__intrinsics__" := by
  decide

/-- C6 (amended): `Dot` and `Semicolon` symbols that arrive when the
intrinsics micro-parser is not in the matching position are emitted verbatim
(`Dot` leaves the parser state unchanged, `Semicolon` resets it), while
`Using` and `Intrinsics` symbols are always consumed by the micro-parser and
never emitted; when the full sequence `using __intrinsics__ . Handle ;` is
matched, the fixed `methodmap Handle __nullable__ {...};` declaration is
emitted instead and the trailing `;` is swallowed. -/
theorem intrinsics_dispatch (ctx : Ctx) (s : PPState) (sym : Symbol) :
    (sym.tokenKind = TokenKind.Dot → s.conditionsStack = [] →
      s.intrinsicsStatus ≠ some IntrinsicsParseStatus.Intrinsics →
      processSymbol ctx s sym = { s with buffer := pushSymbol s.buffer sym })
    ∧ (sym.tokenKind = TokenKind.Semicolon → s.conditionsStack = [] →
      s.intrinsicsStatus ≠ some IntrinsicsParseStatus.Handle →
      processSymbol ctx s sym
        = { s with intrinsicsStatus := none, buffer := pushSymbol s.buffer sym })
    ∧ (sym.tokenKind = TokenKind.Using → s.conditionsStack = [] →
      (processSymbol ctx s sym).buffer = s.buffer)
    ∧ (sym.tokenKind = TokenKind.Intrinsics → s.conditionsStack = [] →
      (processSymbol ctx s sym).buffer = s.buffer)
    ∧ (preprocessInput ctxSpec 20 0 inputC6full).text = methodmapText ++ "\nk;\n\n"
    ∧ (runInput ctxSpec 20 0 inputC6full).halted = some false := by
  refine ⟨?_, ?_, ?_, ?_, by decide, by decide⟩
  · intro heq hcond hstat
    cases hst : s.intrinsicsStatus with
    | none => simp [processSymbol, topIsActivatedOrNotActivated, hcond, heq, hst]
    | some st =>
      cases st <;>
        simp_all [processSymbol, topIsActivatedOrNotActivated, hcond, heq]
  · intro heq hcond hstat
    simp [processSymbol, topIsActivatedOrNotActivated, hcond, heq, hstat]
  · intro heq hcond
    cases hst : s.intrinsicsStatus with
    | none => simp [processSymbol, topIsActivatedOrNotActivated, hcond, heq, hst]
    | some st =>
      cases st <;>
        simp_all [processSymbol, topIsActivatedOrNotActivated, hcond, heq]
  · intro heq hcond
    cases hst : s.intrinsicsStatus with
    | none => simp [processSymbol, topIsActivatedOrNotActivated, hcond, heq, hst]
    | some st =>
      cases st <;>
        simp_all [processSymbol, topIsActivatedOrNotActivated, hcond, heq]

/-! ## Infrastructure for the run lemmas: iterated pushes and step lemmas -/

/-- Push a list of symbols into the buffer, in order. -/
def pushSyms (b : PreprocessorBuffer) : List Symbol → PreprocessorBuffer
  | [] => b
  | sym :: rest => pushSyms (pushSymbol b sym) rest

theorem runN_succ (ctx : Ctx) (n : Nat) (s : PPState) :
    runN ctx (n + 1) s = runN ctx n (step ctx s) := rfl

theorem runN_add (ctx : Ctx) (m n : Nat) (s : PPState) :
    runN ctx (m + n) s = runN ctx n (runN ctx m s) := by
  induction m generalizing s with
  | zero => simp [runN]
  | succ m ih =>
    rw [Nat.succ_add, runN_succ]
    rw [show runN ctx (m + 1) s = runN ctx m (step ctx s) from rfl]
    exact ih (step ctx s)

theorem step_halted (ctx : Ctx) (s : PPState) (h : s.halted.isSome = true) :
    step ctx s = s := by
  simp [step, h]

theorem runN_halted (ctx : Ctx) (n : Nat) (s : PPState) (h : s.halted.isSome = true) :
    runN ctx n s = s := by
  induction n with
  | zero => rfl
  | succ n ih => rw [runN_succ, step_halted ctx s h]; exact ih

theorem flushPending_none (s : PPState) (h : s.pendingExpansion = none) :
    flushPending s = s := by
  simp [flushPending, h]

theorem flushPending_fields (s : PPState) :
    (flushPending s).lexer = s.lexer
    ∧ (flushPending s).macros = s.macros
    ∧ (flushPending s).disabled = s.disabled
    ∧ (flushPending s).expansionStack = s.expansionStack
    ∧ (flushPending s).conditionsStack = s.conditionsStack
    ∧ (flushPending s).intrinsicsStatus = s.intrinsicsStatus
    ∧ (flushPending s).halted = s.halted
    ∧ (flushPending s).buffer.contents = s.buffer.contents
    ∧ (flushPending s).buffer.offset = s.buffer.offset
    ∧ (flushPending s).buffer.sourceMap = s.buffer.sourceMap
    ∧ (flushPending s).expansionEvents = s.expansionEvents
    ∧ (flushPending s).evaluationErrors = s.evaluationErrors
    ∧ (flushPending s).macroNotFoundErrors = s.macroNotFoundErrors
    ∧ (flushPending s).unresolvedIncludeErrors = s.unresolvedIncludeErrors := by
  cases hp : s.pendingExpansion <;>
    simp [flushPending, hp, pushExpandedSymbol]

/-- Token kinds that the active-branch dispatch emits verbatim via
`push_symbol` (when the intrinsics parser is idle and, for identifiers, no
enabled macro matches). -/
def plainKindOk : TokenKind → Bool
  | TokenKind.Identifier => true
  | TokenKind.IntLit => true
  | TokenKind.StrLit => true
  | TokenKind.Comma => true
  | TokenKind.LParen => true
  | TokenKind.RParen => true
  | TokenKind.Percent => true
  | TokenKind.Other => true
  | TokenKind.Dot => true
  | TokenKind.Semicolon => true
  | TokenKind.Newline => true
  | _ => false

/-- A symbol the dispatch emits verbatim: a plain kind whose text, when it is
an identifier, is not bound in the macro store. -/
def drainableSym (mm : MacrosMap) (sym : Symbol) : Bool :=
  plainKindOk sym.tokenKind &&
    (match sym.tokenKind with
     | TokenKind.Identifier => (lookupMacroDef mm sym.text).isNone
     | _ => true)

def noNewlineText (sym : Symbol) : Bool :=
  sym.text.data.all (fun c => !(c == '\n'))

/-- The terminal `Eof` symbol of a lexing: empty text, no whitespace. -/
def eofAt (sym : Symbol) : Bool :=
  sym.tokenKind == TokenKind.Eof && sym.text == "" && sym.delta == 0

/-- A directive-free, intrinsics-free lexing none of whose identifiers is
bound in the store, ending in `Eof`. -/
def lexPlainOk (mm : MacrosMap) : List Symbol → Bool
  | [] => false
  | [sym] => eofAt sym
  | sym :: rest => drainableSym mm sym && lexPlainOk mm rest

/-- Geometry of a lexing: each symbol sits `delta` whitespace bytes after the
previous one, and its range length is its text length. -/
def lexGeomOk : Nat → List Symbol → Bool
  | _, [] => true
  | pos, sym :: rest =>
    (sym.rstart == pos + sym.delta.natAbs) &&
    (sym.rend == sym.rstart + sym.text.length) &&
    lexGeomOk sym.rend rest

/-- Step lemma: a drawn-from-the-stack symbol that the dispatch emits
verbatim. -/
theorem step_stack_emit (ctx : Ctx) (s : PPState) (sym : Symbol) (rest : List Symbol)
    (h1 : s.halted = none) (h2 : s.conditionsStack = [])
    (h3 : s.intrinsicsStatus = none) (h4 : s.expansionStack = sym :: rest)
    (h5 : drainableSym s.macros sym = true) :
    step ctx s = { s with expansionStack := rest, buffer := pushSymbol s.buffer sym } := by
  cases hk : sym.tokenKind <;>
    simp_all [step, processSymbol, processIdentifier, topIsActivatedOrNotActivated,
      drainableSym, plainKindOk, Option.isNone_iff_eq_none]

/-- Step lemma: a drawn-from-the-stack identifier of a disabled macro is
emitted verbatim and re-enables the macro. -/
theorem step_stack_disabled (ctx : Ctx) (s : PPState) (sym : Symbol) (rest : List Symbol)
    (md : MacroDef)
    (h1 : s.halted = none) (h2 : s.conditionsStack = [])
    (h3 : s.intrinsicsStatus = none) (h4 : s.expansionStack = sym :: rest)
    (hk : sym.tokenKind = TokenKind.Identifier)
    (hb : lookupMacroDef s.macros sym.text = some md)
    (hd : s.disabled.contains sym.text = true) :
    step ctx s = { s with expansionStack := rest, disabled := s.disabled.erase sym.text,
                          buffer := pushSymbol s.buffer sym } := by
  simp_all [step, processSymbol, processIdentifier, topIsActivatedOrNotActivated]

/-- Step lemma: a lexer-drawn symbol that the dispatch emits verbatim (the
pending expansion record, if any, is flushed first). -/
theorem step_lex_emit (ctx : Ctx) (s : PPState) (sym : Symbol) (rest : List Symbol)
    (h1 : s.halted = none) (h2 : s.conditionsStack = [])
    (h3 : s.intrinsicsStatus = none) (h4 : s.expansionStack = [])
    (h7 : s.lexer = sym :: rest)
    (h5 : drainableSym s.macros sym = true) :
    step ctx s = { (flushPending s) with
      lexer := rest,
      buffer := pushSymbol (flushPending s).buffer sym } := by
  cases hp : s.pendingExpansion <;> cases hk : sym.tokenKind <;>
    simp_all [step, flushPending, pushExpandedSymbol, processSymbol, processIdentifier,
      topIsActivatedOrNotActivated, drainableSym, plainKindOk, Option.isNone_iff_eq_none]

/-- Step lemma: the lexer-drawn `Eof` pushes the synthetic newline and ends
the loop. -/
theorem step_lex_eof (ctx : Ctx) (s : PPState) (sym : Symbol) (rest : List Symbol)
    (h1 : s.halted = none) (h2 : s.conditionsStack = [])
    (h3 : s.intrinsicsStatus = none) (h4 : s.expansionStack = [])
    (h7 : s.lexer = sym :: rest)
    (hk : sym.tokenKind = TokenKind.Eof) :
    step ctx s = { (flushPending s) with
      lexer := rest,
      buffer := pushNewLine (flushPending s).buffer,
      halted := some false } := by
  cases hp : s.pendingExpansion <;>
    simp_all [step, flushPending, pushExpandedSymbol, processSymbol,
      topIsActivatedOrNotActivated, pushSymbol]

/-- Step lemma: a lexer-drawn identifier of a disabled macro is emitted
verbatim and re-enables the macro. -/
theorem step_lex_disabled (ctx : Ctx) (s : PPState) (sym : Symbol) (rest : List Symbol)
    (md : MacroDef)
    (h1 : s.halted = none) (h2 : s.conditionsStack = [])
    (h3 : s.intrinsicsStatus = none) (h4 : s.expansionStack = [])
    (h7 : s.lexer = sym :: rest)
    (hk : sym.tokenKind = TokenKind.Identifier)
    (hb : lookupMacroDef s.macros sym.text = some md)
    (hd : s.disabled.contains sym.text = true) :
    step ctx s = { (flushPending s) with
      lexer := rest,
      disabled := s.disabled.erase sym.text,
      buffer := pushSymbol (flushPending s).buffer sym } := by
  cases hp : s.pendingExpansion <;>
    simp_all [step, flushPending, pushExpandedSymbol, processSymbol, processIdentifier,
      topIsActivatedOrNotActivated]

/-- Step lemma: a lexer-drawn identifier of an enabled object-like macro
starts an expansion: the adjusted body is pushed onto the expansion stack,
the macro is disabled, the pending expansion record is set and one expansion
event is recorded; the buffer is untouched. -/
theorem step_lex_expand (ctx : Ctx) (s : PPState) (sym : Symbol) (rest : List Symbol)
    (md : MacroDef)
    (h1 : s.halted = none) (h2 : s.conditionsStack = [])
    (h3 : s.intrinsicsStatus = none) (h4 : s.expansionStack = [])
    (h7 : s.lexer = sym :: rest)
    (hk : sym.tokenKind = TokenKind.Identifier)
    (hb : lookupMacroDef s.macros sym.text = some md)
    (hd : s.disabled.contains sym.text = false)
    (hobj : md.params = none) :
    step ctx s = { (flushPending s) with
      lexer := rest,
      expansionStack := adjustBody sym md.body,
      disabled := sym.text :: s.disabled,
      pendingExpansion := some (sym, sym.text, (flushPending s).buffer.offset),
      expansionEvents := s.expansionEvents ++ [sym.text] } := by
  cases hp : s.pendingExpansion <;>
    simp_all [step, flushPending, pushExpandedSymbol, processSymbol, processIdentifier,
      topIsActivatedOrNotActivated, expandIdentifier]

/-- Draining lemma: a prefix of verbatim-emittable symbols on the expansion
stack is emitted one per driver iteration, leaving every other state
component unchanged. -/
theorem drainStack (ctx : Ctx) :
    ∀ (stk : List Symbol) (s : PPState) (rest0 : List Symbol),
      s.halted = none → s.conditionsStack = [] → s.intrinsicsStatus = none →
      s.expansionStack = stk ++ rest0 →
      (∀ sym ∈ stk, drainableSym s.macros sym = true) →
      runN ctx stk.length s
        = { s with expansionStack := rest0, buffer := pushSyms s.buffer stk } := by
  intro stk
  induction stk with
  | nil =>
    intro s rest0 h1 h2 h3 h4 h5
    simp only [List.nil_append] at h4
    simp [runN, pushSyms, ← h4]
  | cons sym stkRest ih =>
    intro s rest0 h1 h2 h3 h4 h5
    rw [List.length_cons, runN_succ,
      step_stack_emit ctx s sym (stkRest ++ rest0) h1 h2 h3 (by simpa using h4)
        (h5 sym (List.mem_cons_self _ _))]
    rw [ih { s with expansionStack := stkRest ++ rest0, buffer := pushSymbol s.buffer sym }
      rest0 h1 h2 h3 rfl (fun b hb => h5 b (List.mem_cons_of_mem _ hb))]
    rfl

theorem strData_append (a b : String) : (a ++ b).data = a.data ++ b.data := by
  cases a; cases b; rfl

theorem strExt {a b : String} (h : a.data = b.data) : a = b := by
  cases a; cases b; cases h; rfl

theorem strAppend_assoc (a b c : String) : a ++ b ++ c = a ++ (b ++ c) :=
  strExt (by simp [strData_append])

theorem strEmpty_append (a : String) : "" ++ a = a :=
  strExt (by simp [strData_append])

theorem strAppend_empty (a : String) : a ++ "" = a :=
  strExt (by simp [strData_append])

theorem linebreakCount_append (a b : String) :
    linebreakCount (a ++ b) = linebreakCount a + linebreakCount b := by
  simp [linebreakCount, strData_append]

/-- What one symbol contributes to the output text when it is emitted
verbatim: the synthetic newline for `Eof`, otherwise its whitespace run and
text. -/
def renderOutSym (sym : Symbol) : String :=
  if sym.tokenKind = TokenKind.Eof then "\n" else spacesStr sym.delta.natAbs ++ sym.text

def renderOut : List Symbol → String
  | [] => ""
  | sym :: rest => renderOutSym sym ++ renderOut rest

theorem pushSymbol_contents (b : PreprocessorBuffer) (sym : Symbol) :
    (pushSymbol b sym).contents = b.contents ++ renderOutSym sym := by
  by_cases hk : sym.tokenKind = TokenKind.Eof <;>
    simp [pushSymbol, pushNewLine, pushWs, pushSymbolNoDelta, renderOutSym, hk, strAppend_assoc]

theorem pushSyms_append (b : PreprocessorBuffer) :
    ∀ (l1 l2 : List Symbol), pushSyms b (l1 ++ l2) = pushSyms (pushSyms b l1) l2 := by
  intro l1
  induction l1 generalizing b with
  | nil => intro l2; rfl
  | cons x rest ih => intro l2; exact ih (pushSymbol b x) l2

theorem pushSyms_contents :
    ∀ (l : List Symbol) (b : PreprocessorBuffer),
      (pushSyms b l).contents = b.contents ++ renderOut l := by
  intro l
  induction l with
  | nil => intro b; simp [pushSyms, renderOut, strAppend_empty]
  | cons sym rest ih =>
    intro b
    rw [show pushSyms b (sym :: rest) = pushSyms (pushSymbol b sym) rest from rfl, ih,
      pushSymbol_contents, renderOut, strAppend_assoc]

theorem plainKindOk_ne_eof {k : TokenKind} (h : plainKindOk k = true) :
    k ≠ TokenKind.Eof := by
  cases k <;> simp_all [plainKindOk]

theorem drainableSym_plainKind {mm : MacrosMap} {sym : Symbol}
    (h : drainableSym mm sym = true) : plainKindOk sym.tokenKind = true := by
  simp [drainableSym, Bool.and_eq_true] at h
  exact h.1

theorem renderOut_eq_renderInput (mm : MacrosMap) :
    ∀ (syms : List Symbol), lexPlainOk mm syms = true →
      renderOut syms = renderInput syms ++ "\n" := by
  intro syms
  induction syms with
  | nil => intro h; simp [lexPlainOk] at h
  | cons sym rest ih =>
    intro h
    cases rest with
    | nil =>
      have heof := h
      simp only [lexPlainOk, eofAt, Bool.and_eq_true, beq_iff_eq] at heof
      obtain ⟨⟨hk, ht⟩, hd⟩ := heof
      simp [renderOut, renderOutSym, renderInput, hk, ht, hd, spacesStr,
        strEmpty_append, strAppend_empty]
    | cons sym2 rest2 =>
      simp only [lexPlainOk, Bool.and_eq_true] at h
      have hk : sym.tokenKind ≠ TokenKind.Eof :=
        plainKindOk_ne_eof (drainableSym_plainKind h.1)
      rw [renderOut, ih h.2, renderOutSym, if_neg hk]
      simp [renderInput, strAppend_assoc]

theorem pushSymbol_sourceMap_id (b : PreprocessorBuffer) (sym : Symbol)
    (hr1 : sym.rstart = b.offset + sym.delta.natAbs)
    (hr2 : sym.rend = sym.rstart + sym.text.length)
    (hmap : ∀ e ∈ b.sourceMap, e.1 = e.2) :
    ∀ e ∈ (pushSymbol b sym).sourceMap, e.1 = e.2 := by
  intro e he
  by_cases hk : sym.tokenKind = TokenKind.Eof
  · exact hmap e (by simpa [pushSymbol, pushNewLine, hk] using he)
  · simp only [pushSymbol, hk, if_false, ite_false, pushWs, pushSymbolNoDelta] at he
    by_cases hre : sym.rstart ≠ sym.rend
    · rw [if_pos hre] at he
      rcases List.mem_append.mp he with hin | hnew
      · exact hmap e hin
      · rcases List.mem_singleton.mp hnew with rfl
        simp only [Prod.mk.injEq]
        exact ⟨by omega, by omega⟩
    · rw [if_neg hre] at he
      exact hmap e he

theorem pushSymbol_offset (b : PreprocessorBuffer) (sym : Symbol)
    (hk : sym.tokenKind ≠ TokenKind.Eof) :
    (pushSymbol b sym).offset = b.offset + sym.delta.natAbs + sym.text.length := by
  simp [pushSymbol, hk, pushWs, pushSymbolNoDelta]

theorem pushSyms_sourceMap_id (mm : MacrosMap) :
    ∀ (l : List Symbol) (b : PreprocessorBuffer),
      lexPlainOk mm l = true →
      lexGeomOk b.offset l = true →
      (∀ e ∈ b.sourceMap, e.1 = e.2) →
      ∀ e ∈ (pushSyms b l).sourceMap, e.1 = e.2 := by
  intro l
  induction l with
  | nil => intro b _ _ hmap; exact fun e he => hmap e he
  | cons sym rest ih =>
    intro b hplain hgeom hmap
    simp only [lexGeomOk, Bool.and_eq_true, beq_iff_eq] at hgeom
    obtain ⟨⟨hr1, hr2⟩, hrec⟩ := hgeom
    have hmap2 := pushSymbol_sourceMap_id b sym hr1 hr2 hmap
    cases rest with
    | nil =>
      intro e he
      exact hmap2 e (by simpa [pushSyms] using he)
    | cons sym2 rest2 =>
      simp only [lexPlainOk, Bool.and_eq_true] at hplain
      have hkne : sym.tokenKind ≠ TokenKind.Eof :=
        plainKindOk_ne_eof (drainableSym_plainKind hplain.1)
      have hoff : (pushSymbol b sym).offset = sym.rend := by
        rw [pushSymbol_offset b sym hkne]; omega
      intro e he
      refine ih (pushSymbol b sym) hplain.2 ?_ hmap2 e he
      rw [hoff]; exact hrec

/-- The run of the driver over a directive-free, macro-free, intrinsics-free
lexing: each symbol is emitted in one iteration and the `Eof` ends the loop
normally, every other state component staying untouched. -/
theorem runPlainLex (ctx : Ctx) :
    ∀ (syms : List Symbol) (s : PPState),
      s.halted = none → s.conditionsStack = [] → s.intrinsicsStatus = none →
      s.expansionStack = [] → s.pendingExpansion = none → s.lexer = syms →
      lexPlainOk s.macros syms = true →
      runN ctx syms.length s
        = { s with lexer := [], buffer := pushSyms s.buffer syms, halted := some false } := by
  intro syms
  induction syms with
  | nil => intro s _ _ _ _ _ _ hplain; simp [lexPlainOk] at hplain
  | cons sym rest ih =>
    intro s h1 h2 h3 h4 h6 h7 hplain
    cases rest with
    | nil =>
      have heof := hplain
      simp only [lexPlainOk, eofAt, Bool.and_eq_true, beq_iff_eq] at heof
      have hk : sym.tokenKind = TokenKind.Eof := heof.1.1
      have h1run : runN ctx (List.length [sym]) s = step ctx s := rfl
      rw [h1run, step_lex_eof ctx s sym [] h1 h2 h3 h4 h7 hk, flushPending_none s h6]
      simp [pushSyms, pushSymbol, hk]
    | cons sym2 rest2 =>
      simp only [lexPlainOk, Bool.and_eq_true] at hplain
      rw [List.length_cons, runN_succ, step_lex_emit ctx s sym (sym2 :: rest2) h1 h2 h3 h4 h7
        hplain.1, flushPending_none s h6]
      rw [ih { s with lexer := sym2 :: rest2, buffer := pushSymbol s.buffer sym }
        h1 h2 h3 h4 h6 rfl hplain.2]
      rfl

/-- C5 (amended): on a directive-free lexing whose inter-symbol whitespace is
all spaces, none of whose identifiers is bound in the (post-`sourcemod`)
macro store, and which contains no `using`/`__intrinsics__` keywords, the
output text is exactly the input followed by the synthetic trailing newline,
and every source-map entry maps an input range to itself. -/
theorem directive_free_roundtrip (ctx : Ctx) (fid fuel : Nat) (syms : List Symbol)
    (hplain : lexPlainOk (ctx.cb [] "sourcemod" fid false).1 syms = true)
    (hgeom : lexGeomOk 0 syms = true)
    (hfuel : syms.length ≤ fuel) :
    (preprocessInput ctx fuel fid syms).text = renderInput syms ++ "\n"
    ∧ (∀ e ∈ (preprocessInput ctx fuel fid syms).sourceMap, e.1 = e.2) := by
  have hrun := runPlainLex ctx syms (includeSourcemod ctx (initState fid syms))
    rfl rfl rfl rfl rfl rfl hplain
  have hfull : runN ctx fuel (includeSourcemod ctx (initState fid syms))
      = { includeSourcemod ctx (initState fid syms) with
            lexer := [],
            buffer := pushSyms (includeSourcemod ctx (initState fid syms)).buffer syms,
            halted := some false } := by
    rw [← Nat.add_sub_cancel' hfuel, runN_add, hrun]
    exact runN_halted ctx _ _ rfl
  constructor
  · show (finalize (runN ctx fuel (includeSourcemod ctx (initState fid syms)))).text = _
    rw [hfull]
    show (pushSyms emptyBuffer syms).contents = _
    rw [pushSyms_contents, renderOut_eq_renderInput _ syms hplain]
    exact strEmpty_append _
  · intro e he
    refine pushSyms_sourceMap_id (ctx.cb [] "sourcemod" fid false).1 syms emptyBuffer hplain
      hgeom (by intro e2 he2; simp [emptyBuffer] at he2) e ?_
    have : (finalize (runN ctx fuel (includeSourcemod ctx (initState fid syms)))).sourceMap
        = (pushSyms emptyBuffer syms).sourceMap := by rw [hfull]; rfl
    rw [← this]
    exact he

/-- Witness for C5 (amended): the lexing of `x\n` renders to itself plus the
synthetic newline, with an identity source map. -/
theorem directive_free_roundtrip_witness :
    lexPlainOk (ctxSpec.cb [] "sourcemod" 0 false).1
        [mkSym TokenKind.Identifier "x" 0 1 0 false,
         mkSym TokenKind.Newline "\n" 1 2 0 false,
         mkSym TokenKind.Eof "" 2 2 0 false] = true
    ∧ lexGeomOk 0
        [mkSym TokenKind.Identifier "x" 0 1 0 false,
         mkSym TokenKind.Newline "\n" 1 2 0 false,
         mkSym TokenKind.Eof "" 2 2 0 false] = true
    ∧ (preprocessInput ctxSpec 3 0
        [mkSym TokenKind.Identifier "x" 0 1 0 false,
         mkSym TokenKind.Newline "\n" 1 2 0 false,
         mkSym TokenKind.Eof "" 2 2 0 false]).text
      = renderInput
        [mkSym TokenKind.Identifier "x" 0 1 0 false,
         mkSym TokenKind.Newline "\n" 1 2 0 false,
         mkSym TokenKind.Eof "" 2 2 0 false] ++ "\n" := by
  refine ⟨by decide, by decide, ?_⟩
  exact (directive_free_roundtrip ctxSpec 0 3
    [mkSym TokenKind.Identifier "x" 0 1 0 false,
     mkSym TokenKind.Newline "\n" 1 2 0 false,
     mkSym TokenKind.Eof "" 2 2 0 false] (by decide) (by decide) (by decide)).1

/-- Witness for C6 (amended) on concrete non-matching states: a lone dot and
a lone semicolon of `. ;` are emitted verbatim. -/
theorem intrinsics_dispatch_witness :
    (mkSym TokenKind.Dot "." 0 1 0 false).tokenKind = TokenKind.Dot
    ∧ (initState 0 []).conditionsStack = []
    ∧ (initState 0 []).intrinsicsStatus ≠ some IntrinsicsParseStatus.Intrinsics
    ∧ processSymbol ctxSpec (initState 0 []) (mkSym TokenKind.Dot "." 0 1 0 false)
        = { initState 0 [] with
              buffer := pushSymbol (initState 0 []).buffer (mkSym TokenKind.Dot "." 0 1 0 false) } := by
  refine ⟨rfl, rfl, by decide, ?_⟩
  exact (intrinsics_dispatch ctxSpec (initState 0 [])
    (mkSym TokenKind.Dot "." 0 1 0 false)).1 rfl rfl (by decide)

/-! ## Newline accounting through macro expansion (claim C1, amended) -/

/-- Texts are newline-faithful: a `Newline` symbol is the byte `\n`, every
other text is newline-free. -/
def textOkSym (sym : Symbol) : Bool :=
  match sym.tokenKind with
  | TokenKind.Newline => sym.text == "\n"
  | _ => noNewlineText sym

/-- A directive-free, intrinsics-free lexing with newline-faithful texts.
Identifiers may be bound in the store. -/
def lexNLOk : List Symbol → Bool
  | [] => false
  | [sym] => eofAt sym
  | sym :: rest => plainKindOk sym.tokenKind && textOkSym sym && lexNLOk rest

/-- A macro body whose expansion only emits inert text: besides the stored
`Newline`/`Eof` symbols (which the expansion drops), every body symbol is
verbatim-emittable with a newline-free text. -/
def goodBody (mm : MacrosMap) (body : List Symbol) : Bool :=
  body.all (fun b =>
    b.tokenKind == TokenKind.Newline || b.tokenKind == TokenKind.Eof ||
      (drainableSym mm b && noNewlineText b))

/-- Every macro of the store is object-like with an inert body. -/
def goodStoreB (mm : MacrosMap) : Bool :=
  mm.all (fun p => p.2.params.isNone && goodBody mm p.2.body)

def countNLSyms (syms : List Symbol) : Nat :=
  syms.countP (fun sym => isNewlineTok sym.tokenKind)

theorem goodStore_aux {mmAll : MacrosMap} :
    ∀ (l : MacrosMap),
      l.all (fun p => p.2.params.isNone && goodBody mmAll p.2.body) = true →
      ∀ {name : String} {md : MacroDef}, lookupMacroDef l name = some md →
        md.params = none ∧ goodBody mmAll md.body = true := by
  intro l
  induction l with
  | nil => intro _ name md hl; simp [lookupMacroDef] at hl
  | cons p rest ih =>
    intro hs name md hl
    simp only [List.all_cons, Bool.and_eq_true] at hs
    rw [lookupMacroDef] at hl
    by_cases hname : p.1 = name
    · rw [if_pos hname] at hl
      cases hl
      exact ⟨Option.isNone_iff_eq_none.mp hs.1.1, hs.1.2⟩
    · rw [if_neg hname] at hl
      exact ih hs.2 hl

theorem goodStoreB_lookup {mm : MacrosMap} {name : String} {md : MacroDef}
    (hs : goodStoreB mm = true) (hl : lookupMacroDef mm name = some md) :
    md.params = none ∧ goodBody mm md.body = true :=
  goodStore_aux mm hs hl

theorem drainableSym_congr {mm : MacrosMap} {x y : Symbol}
    (hk : x.tokenKind = y.tokenKind) (ht : x.text = y.text) :
    drainableSym mm x = drainableSym mm y := by
  simp only [drainableSym, hk, ht]

theorem noNewlineText_congr {x y : Symbol} (ht : x.text = y.text) :
    noNewlineText x = noNewlineText y := by
  simp only [noNewlineText, ht]

theorem mem_deltaAdjust {x : Symbol} {l : List Symbol} {d : Int}
    (hx : x ∈ (match l with
               | [] => ([] : List Symbol)
               | b :: rest => { b with delta := d } :: rest)) :
    ∃ y ∈ l, x.tokenKind = y.tokenKind ∧ x.text = y.text := by
  cases l with
  | nil => simp at hx
  | cons b rest =>
    rcases List.mem_cons.mp hx with rfl | hr
    · exact ⟨b, List.mem_cons_self _ _, rfl, rfl⟩
    · exact ⟨x, List.mem_cons_of_mem _ hr, rfl, rfl⟩

theorem adjustBody_shape (inv : Symbol) (body : List Symbol) :
    ∀ x ∈ adjustBody inv body,
      (∃ y ∈ body, x.tokenKind = y.tokenKind ∧ x.text = y.text)
      ∧ x.tokenKind ≠ TokenKind.Newline ∧ x.tokenKind ≠ TokenKind.Eof := by
  intro x hx
  unfold adjustBody at hx
  obtain ⟨y1, hy1, hk1, ht1⟩ := mem_deltaAdjust hx
  obtain ⟨y2, hy2, rfl⟩ := List.mem_map.mp hy1
  have hy2f := List.mem_filter.mp hy2
  have hpred : y2.tokenKind ≠ TokenKind.Newline ∧ y2.tokenKind ≠ TokenKind.Eof := by
    simpa [decide_eq_true_eq] using hy2f.2
  refine ⟨⟨y2, hy2f.1, by simpa using hk1, by simpa using ht1⟩, ?_, ?_⟩
  · rw [show x.tokenKind = y2.tokenKind from by simpa using hk1]; exact hpred.1
  · rw [show x.tokenKind = y2.tokenKind from by simpa using hk1]; exact hpred.2

theorem adjustBody_drainable {mm : MacrosMap} {inv : Symbol} {body : List Symbol}
    (hgood : goodBody mm body = true) :
    ∀ x ∈ adjustBody inv body,
      drainableSym mm x = true ∧ noNewlineText x = true
      ∧ x.tokenKind ≠ TokenKind.Eof := by
  intro x hx
  obtain ⟨⟨y, hy, hk, ht⟩, hnl, hne⟩ := adjustBody_shape inv body x hx
  simp only [goodBody, List.all_eq_true] at hgood
  have hb := hgood y hy
  simp only [Bool.or_eq_true, Bool.and_eq_true, beq_iff_eq] at hb
  rcases hb with (hy1 | hy2) | ⟨hdr, hnt⟩
  · exact absurd (hk.trans hy1) hnl
  · exact absurd (hk.trans hy2) hne
  · exact ⟨(drainableSym_congr hk ht).trans hdr, (noNewlineText_congr ht).trans hnt,
      fun he => hne he⟩

theorem spacesStr_linebreaks (n : Nat) : linebreakCount (spacesStr n) = 0 := by
  simp [linebreakCount, spacesStr, List.count_replicate]

theorem noNewlineText_linebreaks {sym : Symbol} (h : noNewlineText sym = true) :
    linebreakCount sym.text = 0 := by
  simp only [noNewlineText, List.all_eq_true] at h
  rw [linebreakCount, List.count_eq_zero]
  intro hmem
  have := h _ hmem
  simp at this

theorem pushSymbol_linebreaks (b : PreprocessorBuffer) (sym : Symbol) :
    linebreakCount (pushSymbol b sym).contents
      = linebreakCount b.contents
        + (if sym.tokenKind = TokenKind.Eof then 1 else linebreakCount sym.text) := by
  rw [pushSymbol_contents, linebreakCount_append, renderOutSym]
  by_cases hk : sym.tokenKind = TokenKind.Eof
  · simp [hk, linebreakCount]
  · simp [hk, linebreakCount_append, spacesStr_linebreaks]

theorem pushSyms_linebreaks_inert :
    ∀ (l : List Symbol) (b : PreprocessorBuffer),
      (∀ sym ∈ l, sym.tokenKind ≠ TokenKind.Eof ∧ noNewlineText sym = true) →
      linebreakCount (pushSyms b l).contents = linebreakCount b.contents := by
  intro l
  induction l with
  | nil => intro b _; rfl
  | cons sym rest ih =>
    intro b h
    rw [show pushSyms b (sym :: rest) = pushSyms (pushSymbol b sym) rest from rfl,
      ih _ (fun x hx => h x (List.mem_cons_of_mem _ hx)), pushSymbol_linebreaks,
      if_neg (h sym (List.mem_cons_self _ _)).1,
      noNewlineText_linebreaks (h sym (List.mem_cons_self _ _)).2]
    omega

theorem textOk_newline {sym : Symbol} (h : textOkSym sym = true)
    (hk : sym.tokenKind = TokenKind.Newline) : sym.text = "\n" := by
  rw [textOkSym, hk] at h
  simpa using h

theorem textOk_not_newline {sym : Symbol} (h : textOkSym sym = true)
    (hk : sym.tokenKind ≠ TokenKind.Newline) : noNewlineText sym = true := by
  cases hkk : sym.tokenKind <;> simp_all [textOkSym]

theorem renderInput_linebreaks :
    ∀ (syms : List Symbol), lexNLOk syms = true →
      linebreakCount (renderInput syms) = countNLSyms syms := by
  intro syms
  induction syms with
  | nil => intro h; simp [lexNLOk] at h
  | cons sym rest ih =>
    intro h
    cases rest with
    | nil =>
      have heof := h
      simp only [lexNLOk, eofAt, Bool.and_eq_true, beq_iff_eq] at heof
      obtain ⟨⟨hk, ht⟩, _⟩ := heof
      simp [renderInput, countNLSyms, isNewlineTok, hk, ht, linebreakCount_append,
        spacesStr_linebreaks, linebreakCount, spacesStr, List.count_replicate]
    | cons sym2 rest2 =>
      simp only [lexNLOk, Bool.and_eq_true] at h
      obtain ⟨⟨hpk, htx⟩, hrest⟩ := h
      rw [renderInput, linebreakCount_append, linebreakCount_append, spacesStr_linebreaks,
        ih hrest]
      by_cases hnl2 : sym.tokenKind = TokenKind.Newline
      · rw [textOk_newline htx hnl2]
        have h1 : linebreakCount "\n" = 1 := rfl
        rw [h1]
        simp [countNLSyms, List.countP_cons, isNewlineTok, hnl2]
        omega
      · rw [noNewlineText_linebreaks (textOk_not_newline htx hnl2)]
        have hfalse : isNewlineTok sym.tokenKind = false := by
          cases hkk : sym.tokenKind <;> simp_all [isNewlineTok]
        simp [countNLSyms, List.countP_cons, hfalse]

theorem flushPending_contents (s : PPState) :
    (flushPending s).buffer.contents = s.buffer.contents := by
  cases hp : s.pendingExpansion <;> simp [flushPending, hp, pushExpandedSymbol]

theorem flushPending_halted (s : PPState) : (flushPending s).halted = s.halted := by
  cases hp : s.pendingExpansion <;> simp [flushPending, hp]

theorem flushPending_cond (s : PPState) :
    (flushPending s).conditionsStack = s.conditionsStack := by
  cases hp : s.pendingExpansion <;> simp [flushPending, hp]

theorem flushPending_intr (s : PPState) :
    (flushPending s).intrinsicsStatus = s.intrinsicsStatus := by
  cases hp : s.pendingExpansion <;> simp [flushPending, hp]

theorem flushPending_macrosEq (s : PPState) : (flushPending s).macros = s.macros := by
  cases hp : s.pendingExpansion <;> simp [flushPending, hp]

theorem drainableSym_of_kind {mm : MacrosMap} {sym : Symbol}
    (hp : plainKindOk sym.tokenKind = true)
    (h : sym.tokenKind = TokenKind.Identifier → (lookupMacroDef mm sym.text).isNone = true) :
    drainableSym mm sym = true := by
  cases hk : sym.tokenKind <;> simp_all [drainableSym, plainKindOk]

theorem isNewlineTok_false {sym : Symbol} (h : sym.tokenKind ≠ TokenKind.Newline) :
    isNewlineTok sym.tokenKind = false := by
  cases hk : sym.tokenKind <;> simp_all [isNewlineTok]

theorem pushSymbol_linebreaks_plain {b : PreprocessorBuffer} {sym : Symbol}
    (hpk : plainKindOk sym.tokenKind = true) (htx : textOkSym sym = true) :
    linebreakCount (pushSymbol b sym).contents
      = linebreakCount b.contents + (if isNewlineTok sym.tokenKind = true then 1 else 0) := by
  rw [pushSymbol_linebreaks, if_neg (plainKindOk_ne_eof hpk)]
  by_cases hnl : sym.tokenKind = TokenKind.Newline
  · rw [textOk_newline htx hnl]
    have h1 : linebreakCount "\n" = 1 := rfl
    simp [isNewlineTok, hnl, h1]
  · rw [noNewlineText_linebreaks (textOk_not_newline htx hnl), isNewlineTok_false hnl]
    simp

/-- The driver over a directive-free, intrinsics-free lexing against a store
of object-like macros with inert bodies: the run halts normally having
emitted exactly one newline per `Newline` symbol of the lexing plus the
synthetic `Eof` newline, whatever the disabled set and pending expansion
record are. -/
theorem runNLCount (ctx : Ctx) :
    ∀ (syms : List Symbol) (s : PPState),
      s.halted = none → s.conditionsStack = [] → s.intrinsicsStatus = none →
      s.expansionStack = [] → s.lexer = syms →
      goodStoreB s.macros = true →
      lexNLOk syms = true →
      ∃ n, (runN ctx n s).halted = some false
        ∧ linebreakCount (runN ctx n s).buffer.contents
            = linebreakCount s.buffer.contents + countNLSyms syms + 1 := by
  intro syms
  induction syms with
  | nil => intro s _ _ _ _ _ _ h; simp [lexNLOk] at h
  | cons sym rest ih =>
    intro s h1 h2 h3 h4 h7 hstore hlex
    cases rest with
    | nil =>
      have heof := hlex
      simp only [lexNLOk, eofAt, Bool.and_eq_true, beq_iff_eq] at heof
      have hk : sym.tokenKind = TokenKind.Eof := heof.1.1
      have hstep := step_lex_eof ctx s sym [] h1 h2 h3 h4 h7 hk
      refine ⟨1, ?_, ?_⟩
      · rw [show runN ctx 1 s = step ctx s from rfl, hstep]
      · rw [show runN ctx 1 s = step ctx s from rfl, hstep]
        show linebreakCount (pushNewLine (flushPending s).buffer).contents = _
        rw [show (pushNewLine (flushPending s).buffer).contents
            = (flushPending s).buffer.contents ++ "\n" from rfl, linebreakCount_append,
          flushPending_contents]
        have h0 : countNLSyms [sym] = 0 := by simp [countNLSyms, isNewlineTok, hk]
        rw [h0]
        rfl
    | cons sym2 rest2 =>
      simp only [lexNLOk, Bool.and_eq_true] at hlex
      obtain ⟨⟨hpk, htx⟩, hrest⟩ := hlex
      have hcont : ∀ (k : Nat) (sE : PPState), runN ctx k s = sE →
          sE.halted = none → sE.conditionsStack = [] → sE.intrinsicsStatus = none →
          sE.expansionStack = [] → sE.lexer = sym2 :: rest2 → sE.macros = s.macros →
          linebreakCount sE.buffer.contents
            = linebreakCount s.buffer.contents
              + (if isNewlineTok sym.tokenKind = true then 1 else 0) →
          ∃ n, (runN ctx n s).halted = some false
            ∧ linebreakCount (runN ctx n s).buffer.contents
                = linebreakCount s.buffer.contents + countNLSyms (sym :: sym2 :: rest2) + 1 := by
        intro k sE hkrun hE1 hE2 hE3 hE4 hE7 hEm hEcount
        obtain ⟨n, hh, hc⟩ := ih sE hE1 hE2 hE3 hE4 hE7 (by rw [hEm]; exact hstore) hrest
        refine ⟨k + n, ?_, ?_⟩
        · rw [runN_add, hkrun]; exact hh
        · rw [runN_add, hkrun, hc, hEcount]
          have hcnl : countNLSyms (sym :: sym2 :: rest2)
              = countNLSyms (sym2 :: rest2)
                + (if isNewlineTok sym.tokenKind = true then 1 else 0) := by
            simp [countNLSyms, List.countP_cons]
          rw [hcnl]
          omega
      by_cases hkid : sym.tokenKind = TokenKind.Identifier
      · cases hlook : lookupMacroDef s.macros sym.text with
        | none =>
          have hdr : drainableSym s.macros sym = true :=
            drainableSym_of_kind hpk (fun _ => by simp [hlook])
          have hstep := step_lex_emit ctx s sym (sym2 :: rest2) h1 h2 h3 h4 h7 hdr
          exact hcont 1 _ ((show runN ctx 1 s = step ctx s from rfl).trans hstep)
            ((flushPending_halted s).trans h1)
            ((flushPending_cond s).trans h2)
            ((flushPending_intr s).trans h3)
            (((flushPending_fields s).2.2.2.1).trans h4)
            rfl
            (flushPending_macrosEq s)
            ((pushSymbol_linebreaks_plain hpk htx).trans (by rw [flushPending_contents]))
        | some md =>
          by_cases hdis : s.disabled.contains sym.text = true
          · have hstep := step_lex_disabled ctx s sym (sym2 :: rest2) md h1 h2 h3 h4 h7 hkid
              hlook hdis
            exact hcont 1 _ ((show runN ctx 1 s = step ctx s from rfl).trans hstep)
              ((flushPending_halted s).trans h1)
              ((flushPending_cond s).trans h2)
              ((flushPending_intr s).trans h3)
              (((flushPending_fields s).2.2.2.1).trans h4)
              rfl
              (flushPending_macrosEq s)
              ((pushSymbol_linebreaks_plain hpk htx).trans (by rw [flushPending_contents]))
          · have hdisF : s.disabled.contains sym.text = false := by
              rwa [Bool.not_eq_true] at hdis
            obtain ⟨hobj, hgoodbody⟩ := goodStoreB_lookup hstore hlook
            have hstep := step_lex_expand ctx s sym (sym2 :: rest2) md h1 h2 h3 h4 h7 hkid
              hlook hdisF hobj
            have hdrain := drainStack ctx (adjustBody sym md.body) (step ctx s) []
              (hstep ▸ ((flushPending_halted s).trans h1))
              (hstep ▸ ((flushPending_cond s).trans h2))
              (hstep ▸ ((flushPending_intr s).trans h3))
              (by rw [hstep]; exact (List.append_nil _).symm)
              (by intro x hx
                  rw [hstep]
                  show drainableSym (flushPending s).macros x = true
                  rw [flushPending_macrosEq]
                  exact (adjustBody_drainable hgoodbody x hx).1)
            refine hcont (1 + (adjustBody sym md.body).length) _
              (by rw [runN_add, show runN ctx 1 s = step ctx s from rfl, hdrain])
              ?_ ?_ ?_ ?_ ?_ ?_ ?_
            · show ((step ctx s)).halted = none
              rw [hstep]
              exact (flushPending_halted s).trans h1
            · show ((step ctx s)).conditionsStack = []
              rw [hstep]
              exact (flushPending_cond s).trans h2
            · show ((step ctx s)).intrinsicsStatus = none
              rw [hstep]
              exact (flushPending_intr s).trans h3
            · rfl
            · show ((step ctx s)).lexer = sym2 :: rest2
              rw [hstep]
            · show ((step ctx s)).macros = s.macros
              rw [hstep]
              exact flushPending_macrosEq s
            · show linebreakCount (pushSyms (step ctx s).buffer (adjustBody sym md.body)).contents = _
              rw [pushSyms_linebreaks_inert (adjustBody sym md.body) (step ctx s).buffer
                (fun x hx => ⟨(adjustBody_drainable hgoodbody x hx).2.2,
                  (adjustBody_drainable hgoodbody x hx).2.1⟩)]
              rw [show (step ctx s).buffer.contents = (flushPending s).buffer.contents from by
                rw [hstep]]
              rw [flushPending_contents,
                isNewlineTok_false (by rw [hkid]; intro hcontra; cases hcontra)]
              simp
      · have hdr : drainableSym s.macros sym = true :=
          drainableSym_of_kind hpk (fun hcontra => absurd hcontra hkid)
        have hstep := step_lex_emit ctx s sym (sym2 :: rest2) h1 h2 h3 h4 h7 hdr
        exact hcont 1 _ ((show runN ctx 1 s = step ctx s from rfl).trans hstep)
          ((flushPending_halted s).trans h1)
          ((flushPending_cond s).trans h2)
          ((flushPending_intr s).trans h3)
          (((flushPending_fields s).2.2.2.1).trans h4)
          rfl
          (flushPending_macrosEq s)
          ((pushSymbol_linebreaks_plain hpk htx).trans (by rw [flushPending_contents]))

/-- C1 (amended): for every directive-free, intrinsics-free lexing with
newline-faithful texts, run against a macro store (as pre-loaded by the
`sourcemod` callback) whose macros are all object-like with inert bodies,
the run halts normally and the number of `\n` bytes in the output equals the
number of `\n` bytes in the input plus one (the synthetic newline emitted at
`Eof`), regardless of which macros are defined or expanded along the way. -/
theorem newline_preservation (ctx : Ctx) (fid : Nat) (syms : List Symbol)
    (hstore : goodStoreB (ctx.cb [] "sourcemod" fid false).1 = true)
    (hlex : lexNLOk syms = true) :
    ∃ n, ∀ fuel, n ≤ fuel →
      (runInput ctx fuel fid syms).halted = some false
      ∧ linebreakCount (preprocessInput ctx fuel fid syms).text
          = linebreakCount (renderInput syms) + 1 := by
  obtain ⟨n, hh, hc⟩ := runNLCount ctx syms (includeSourcemod ctx (initState fid syms))
    rfl rfl rfl rfl rfl hstore hlex
  refine ⟨n, fun fuel hf => ?_⟩
  have habs : runN ctx fuel (includeSourcemod ctx (initState fid syms))
      = runN ctx n (includeSourcemod ctx (initState fid syms)) := by
    rw [← Nat.add_sub_cancel' hf, runN_add]
    exact runN_halted ctx _ _ (by simp [hh])
  constructor
  · show (runN ctx fuel (includeSourcemod ctx (initState fid syms))).halted = some false
    rw [habs]; exact hh
  · show linebreakCount
        (runN ctx fuel (includeSourcemod ctx (initState fid syms))).buffer.contents = _
    rw [habs, hc, renderInput_linebreaks syms hlex]
    have h0 : linebreakCount (includeSourcemod ctx (initState fid syms)).buffer.contents = 0 :=
      rfl
    rw [h0]
    omega

/-- Witness for C1 (amended): the two-line lexing of `\n` preserves the
newline count (1 in, 2 out including the synthetic one). -/
theorem newline_preservation_witness :
    goodStoreB (ctxSpec.cb [] "sourcemod" 0 false).1 = true
    ∧ lexNLOk
        [mkSym TokenKind.Newline "\n" 0 1 0 false,
         mkSym TokenKind.Eof "" 1 1 0 false] = true
    ∧ ∃ n, ∀ fuel, n ≤ fuel →
        (runInput ctxSpec fuel 0
          [mkSym TokenKind.Newline "\n" 0 1 0 false,
           mkSym TokenKind.Eof "" 1 1 0 false]).halted = some false
        ∧ linebreakCount (preprocessInput ctxSpec fuel 0
            [mkSym TokenKind.Newline "\n" 0 1 0 false,
             mkSym TokenKind.Eof "" 1 1 0 false]).text
          = linebreakCount (renderInput
              [mkSym TokenKind.Newline "\n" 0 1 0 false,
               mkSym TokenKind.Eof "" 1 1 0 false]) + 1 :=
  ⟨by decide, by decide,
    newline_preservation ctxSpec 0
      [mkSym TokenKind.Newline "\n" 0 1 0 false,
       mkSym TokenKind.Eof "" 1 1 0 false] (by decide) (by decide)⟩

/-! ## Single expansion of a self-referencing macro (claim C4, amended) -/

/-- C4 (amended): take an enabled object-like macro `name` whose adjusted
body is `pre ++ selfOcc :: post`, where `selfOcc` is the single occurrence of
the macro's own name and every other body symbol is verbatim-emittable (its
identifiers unbound).  At an invocation site the driver performs exactly one
expansion of the macro (`expansionEvents` grows by `[name]` only), the inner
occurrence is emitted verbatim while the macro is disabled, and once the body
is drained the disabled set is back to what it was — the macro is enabled
again — with the whole adjusted body emitted into the buffer.  On the spec's
example `#define F F+1\nint r = F;\n`, the run terminates with exactly one
recorded expansion of `F` and the output contains `int r = F+1;`. -/
theorem self_recursive_macro_expands_once (ctx : Ctx) (s : PPState) (sym selfOcc : Symbol)
    (lexRest pre post : List Symbol) (md : MacroDef)
    (h1 : s.halted = none) (h2 : s.conditionsStack = [])
    (h3 : s.intrinsicsStatus = none) (h4 : s.expansionStack = [])
    (h6 : s.pendingExpansion = none)
    (h7 : s.lexer = sym :: lexRest)
    (hkid : sym.tokenKind = TokenKind.Identifier)
    (hb : lookupMacroDef s.macros sym.text = some md)
    (hdis : s.disabled.contains sym.text = false)
    (hobj : md.params = none)
    (hbody : adjustBody sym md.body = pre ++ selfOcc :: post)
    (hself : selfOcc.tokenKind = TokenKind.Identifier ∧ selfOcc.text = sym.text)
    (hpre : ∀ b ∈ pre, drainableSym s.macros b = true)
    (hpost : ∀ b ∈ post, drainableSym s.macros b = true) :
    runN ctx (1 + pre.length + 1 + post.length) s
      = { s with lexer := lexRest,
                 expansionStack := [],
                 pendingExpansion := some (sym, sym.text, s.buffer.offset),
                 expansionEvents := s.expansionEvents ++ [sym.text],
                 buffer := pushSyms s.buffer (pre ++ selfOcc :: post) }
    ∧ (runInput ctxSpec 40 0 inputC4ex).halted = some false
    ∧ (runInput ctxSpec 40 0 inputC4ex).expansionEvents = ["F"]
    ∧ containsStr (preprocessInput ctxSpec 40 0 inputC4ex).text "int r = F+1;" := by
  refine ⟨?_, by decide, by decide, by decide⟩
  have hstep := step_lex_expand ctx s sym lexRest md h1 h2 h3 h4 h7 hkid hb hdis hobj
  rw [flushPending_none s h6] at hstep
  have hstep2 : step ctx s
      = { s with lexer := lexRest,
                 expansionStack := pre ++ selfOcc :: post,
                 disabled := sym.text :: s.disabled,
                 pendingExpansion := some (sym, sym.text, s.buffer.offset),
                 expansionEvents := s.expansionEvents ++ [sym.text] } := by
    rw [hstep, hbody]
  have hdrain1 := drainStack ctx pre
    (step ctx s) (selfOcc :: post)
    (by rw [hstep2]; exact h1)
    (by rw [hstep2]; exact h2)
    (by rw [hstep2]; exact h3)
    (by rw [hstep2])
    (by intro x hx; rw [hstep2]; exact hpre x hx)
  have hmid : runN ctx (1 + pre.length) s
      = { s with lexer := lexRest,
                 expansionStack := selfOcc :: post,
                 disabled := sym.text :: s.disabled,
                 pendingExpansion := some (sym, sym.text, s.buffer.offset),
                 expansionEvents := s.expansionEvents ++ [sym.text],
                 buffer := pushSyms s.buffer pre } := by
    rw [runN_add, show runN ctx 1 s = step ctx s from rfl, hdrain1, hstep2]
  have hselfstep := step_stack_disabled ctx (runN ctx (1 + pre.length) s) selfOcc post md
    (by rw [hmid]; exact h1)
    (by rw [hmid]; exact h2)
    (by rw [hmid]; exact h3)
    (by rw [hmid])
    hself.1
    (by rw [hmid]; show lookupMacroDef s.macros selfOcc.text = some md
        rw [hself.2]; exact hb)
    (by rw [hmid]; show (sym.text :: s.disabled).contains selfOcc.text = true
        rw [hself.2]; simp)
  have hmid2 : runN ctx (1 + pre.length + 1) s
      = { s with lexer := lexRest,
                 expansionStack := post,
                 pendingExpansion := some (sym, sym.text, s.buffer.offset),
                 expansionEvents := s.expansionEvents ++ [sym.text],
                 buffer := pushSymbol (pushSyms s.buffer pre) selfOcc } := by
    rw [runN_add, show runN ctx 1 (runN ctx (1 + pre.length) s)
        = step ctx (runN ctx (1 + pre.length) s) from rfl, hselfstep, hmid]
    apply PPState.ext <;> try rfl
    show (sym.text :: s.disabled).erase selfOcc.text = s.disabled
    rw [hself.2]
    exact List.erase_cons_head _ _
  have hdrain2 := drainStack ctx post (runN ctx (1 + pre.length + 1) s) []
    (by rw [hmid2]; exact h1)
    (by rw [hmid2]; exact h2)
    (by rw [hmid2]; exact h3)
    (by rw [hmid2]; exact (List.append_nil _).symm)
    (by intro x hx; rw [hmid2]; exact hpost x hx)
  rw [runN_add, hdrain2, hmid2]
  have hpush : pushSyms (pushSymbol (pushSyms s.buffer pre) selfOcc) post
      = pushSyms s.buffer (pre ++ selfOcc :: post) := by
    rw [pushSyms_append]
    rfl
  apply PPState.ext <;> try rfl
  show pushSyms (pushSymbol (pushSyms s.buffer pre) selfOcc) post
      = pushSyms s.buffer (pre ++ selfOcc :: post)
  exact hpush

/-- The macro record produced by `#define F F+1` (body tokens `F`, `+`, `1`
and the terminating newline, all carrying `in_preprocessor`). -/
def mdC4w : MacroDef :=
  { fileId := 0, nameLen := 1,
    body := [ mkSym TokenKind.Identifier "F" 10 11 1 true
            , mkSym TokenKind.Other "+" 11 12 0 true
            , mkSym TokenKind.IntLit "1" 12 13 0 true
            , mkSym TokenKind.Newline "\n" 13 14 0 true ],
    params := none, nbParams := 0 }

/-- Driver state at the invocation site of `F`: store holds the `F ↦ F+1`
macro and the lexer is about to deliver the invocation identifier. -/
def sC4w : PPState :=
  { initState 0 [ mkSym TokenKind.Identifier "F" 22 23 1 false
                , mkSym TokenKind.Eof "" 25 25 0 false ] with
    macros := [("F", mdC4w)] }

/-- Witness for C4 (amended): at the concrete state `sC4w` the invocation of
the self-referencing macro `F` runs to a state with exactly one recorded
expansion, the adjusted body `F + 1` emitted, and `F` enabled again. -/
theorem self_recursive_macro_expands_once_witness :
    runN ctxSpec 4 sC4w
      = { sC4w with
          lexer := [mkSym TokenKind.Eof "" 25 25 0 false],
          expansionStack := [],
          pendingExpansion := some (mkSym TokenKind.Identifier "F" 22 23 1 false, "F", 0),
          expansionEvents := ["F"],
          buffer := pushSyms sC4w.buffer
            [ mkSym TokenKind.Identifier "F" 0 0 1 false
            , mkSym TokenKind.Other "+" 0 0 0 false
            , mkSym TokenKind.IntLit "1" 0 0 0 false ] }
    ∧ (runInput ctxSpec 40 0 inputC4ex).halted = some false
    ∧ (runInput ctxSpec 40 0 inputC4ex).expansionEvents = ["F"]
    ∧ containsStr (preprocessInput ctxSpec 40 0 inputC4ex).text "int r = F+1;" :=
  self_recursive_macro_expands_once ctxSpec sC4w
    (mkSym TokenKind.Identifier "F" 22 23 1 false)
    (mkSym TokenKind.Identifier "F" 0 0 1 false)
    [mkSym TokenKind.Eof "" 25 25 0 false]
    []
    [ mkSym TokenKind.Other "+" 0 0 0 false
    , mkSym TokenKind.IntLit "1" 0 0 0 false ]
    mdC4w rfl rfl rfl rfl rfl rfl rfl (by decide) (by decide) rfl (by decide)
    ⟨rfl, rfl⟩ (by intro b h; cases h) (by decide)

end SP
